import Mathlib

/-!
PlayCanvas engine: shader pass registry and WebGPU bind group descriptors.

A shallow embedding of `src/scene/shader-pass.js` (classes `ShaderPassInfo` and
`ShaderPass`), of `WebgpuBindGroup` (`update`, `destroy`, `createDescriptor`) from
`src/platform/graphics/webgpu/webgpu-bind-group.js` and of the setters of
`AssetReference` from `src/framework/asset/asset-reference.js`, followed by theorems
about them.

Conventions of the embedding:
* a JavaScript `Map` with string keys is an association list in insertion order;
* a JavaScript array that may have holes is a list of optional elements;
* a JavaScript exception is the `error` case of `Except Error`; a method that
  mutates `this` returns the object after the call next to its result;
* `undefined` / `null` is `none`.
-/

set_option autoImplicit false

namespace PlayCanvas

/-! ## Errors and the debug helper -/

/-- The failures a call can end with. `TypeError` is JavaScript's own exception for reading
a property of `undefined`; `AssertionFailed` is a failed assertion to which the
specification gives no name of its own. -/
inductive Error where
  | InvalidName
  | OutOfRange
  | NullResource
  | AssertionFailed
  | TypeError
deriving DecidableEq, Repr

/-- Modelled from the spec: `Debug.assert` of `core/debug.js`, a file that is not among the
sources. The specification describes every violated assertion of this layer as fatal
("fail fast (abort/throw)"), so a falsy assertion ends the call with the given error and a
truthy one does nothing. -/
def Debug.assert (assertion : Bool) (e : Error) : Except Error Unit :=
  if assertion then .ok () else .error e

/-! ## JavaScript containers -/

/-- `Map.prototype.get` on an insertion-ordered map with string keys. -/
def JSMap.get {α : Type} : List (String × α) → String → Option α
  | [], _ => none
  | (k', v') :: m, k => if k' = k then some v' else JSMap.get m k

/-- `Map.prototype.set`: an existing key keeps its position and takes the new value, a new
key is appended. -/
def JSMap.set {α : Type} : List (String × α) → String → α → List (String × α)
  | [], k, v => [(k, v)]
  | (k', v') :: m, k, v => if k' = k then (k', v) :: m else (k', v') :: JSMap.set m k v

/-- Array read `a[i]` for a numeric (integer) index: `undefined` outside `0 .. length-1`
and at a hole. -/
def JSArray.get {α : Type} (a : List (Option α)) : Int → Option α
  | Int.ofNat n => (a[n]?).join
  | Int.negSucc _ => none

/-- Array write `a[i] = v` for a non-negative integer index: writing past the end extends
the array and leaves holes in between. -/
def JSArray.set {α : Type} : List (Option α) → Nat → α → List (Option α)
  | [], 0, v => [some v]
  | [], n + 1, v => none :: JSArray.set [] n v
  | _ :: a, 0, v => some v :: a
  | x :: a, n + 1, v => x :: JSArray.set a n v

/-- `String.prototype.toUpperCase`, exact on ASCII strings (every name that passes the
name check of `ShaderPassInfo` is ASCII). -/
def toUpperCase (s : String) : String :=
  String.mk (s.data.map Char.toUpper)

/-- JavaScript truthiness of an optional boolean property. -/
def truthy : Option Bool → Bool
  | some b => b
  | none => false

/-! ## Constants -/

/-- Modelled from the spec: `SHADER_FORWARD` of `scene/constants.js` (not among the
sources); the specification fixes `forward = 0`. -/
def SHADER_FORWARD : Nat := 0

/-- Modelled from the spec: `SHADER_PREPASS` of `scene/constants.js`; `prepass = 1`. -/
def SHADER_PREPASS : Nat := 1

/-- Modelled from the spec: `SHADER_SHADOW` of `scene/constants.js`; `shadow = 2`. -/
def SHADER_SHADOW : Nat := 2

/-- Modelled from the spec: `SHADER_PICK` of `scene/constants.js`; `pick = 3`. -/
def SHADER_PICK : Nat := 3

/-! ## `ShaderPassInfo` -/

/-- The `options` object of `allocate` / `new ShaderPassInfo`. The four documented fields
come first. `name` and `index` are the two fields of an options object that collide with
own fields of `ShaderPassInfo`, which `Object.assign` then overwrites. An absent field
is `none`; the default `options = {}` has every field absent. -/
structure Options where
  isForward : Option Bool := none
  isShadow : Option Bool := none
  lightType : Option Int := none
  shadowType : Option Int := none
  name : Option String := none
  index : Option Nat := none
deriving DecidableEq, Repr

/-- An options object that carries documented fields only. -/
def Options.documented (o : Options) : Prop :=
  o.name = none ∧ o.index = none

instance (o : Options) : Decidable o.documented := by
  unfold Options.documented; infer_instance

/-- Fields of a `ShaderPassInfo`: the declared `index`, `name`, `defines` and the
properties copied from the options. -/
structure ShaderPassInfo where
  index : Nat
  name : String
  defines : List (String × String)
  isForward : Option Bool
  isShadow : Option Bool
  lightType : Option Int
  shadowType : Option Int
deriving DecidableEq, Repr

/-- The test `/^[a-z]` of the name check under the `i` flag: a character matches when its
canonical (upper-case) form is one of `A`..`Z`; no character outside ASCII canonicalises
into ASCII. -/
def isLetterIgnoreCase (c : Char) : Bool :=
  let u := c.toUpper
  decide ('A' ≤ u ∧ u ≤ 'Z')

/-- The class `\w` of a regular expression without the `u` flag: `[A-Za-z0-9_]`. -/
def isWordChar (c : Char) : Bool :=
  decide ('a' ≤ c ∧ c ≤ 'z') || decide ('A' ≤ c ∧ c ≤ 'Z') || decide ('0' ≤ c ∧ c ≤ '9')
    || decide (c = '_')

/-- `/^[a-z]\w*$/i.test(name)`. -/
def nameRegexTest (name : String) : Bool :=
  match name.data with
  | [] => false
  | c :: cs => isLetterIgnoreCase c && cs.all isWordChar

/-- `Object.assign(this, options)`: every field present in the options overwrites the field
of the same name. -/
def ShaderPassInfo.assign (self : ShaderPassInfo) (options : Options) : ShaderPassInfo :=
  { index := match options.index with
      | some i => i
      | none => self.index
    name := match options.name with
      | some n => n
      | none => self.name
    defines := self.defines
    isForward := match options.isForward with
      | some b => some b
      | none => self.isForward
    isShadow := match options.isShadow with
      | some b => some b
      | none => self.isShadow
    lightType := match options.lightType with
      | some t => some t
      | none => self.lightType
    shadowType := match options.shadowType with
      | some t => some t
      | none => self.shadowType }

/-- The template literal with `keyword` spliced in front of `_PASS`; an `undefined` keyword
is spliced in as the text `undefined`. -/
def keywordDefine (keyword : Option String) : String :=
  (match keyword with
    | some k => k
    | none => "undefined") ++ "_PASS"

/-- `ShaderPassInfo.buildShaderDefines`. -/
def ShaderPassInfo.buildShaderDefines (self : ShaderPassInfo) : ShaderPassInfo :=
  let keyword : Option String :=
    if truthy self.isShadow then some "SHADOW"
    else if truthy self.isForward then some "FORWARD"
    else if self.index = SHADER_PICK then some "PICK"
    else none
  let defines := JSMap.set self.defines (keywordDefine keyword) ""
  let defines := JSMap.set defines (toUpperCase self.name ++ "_PASS") ""
  { self with defines := defines }

/-- The constructor `new ShaderPassInfo(name, index, options)`. -/
def ShaderPassInfo.new (name : String) (index : Nat) (options : Options) :
    Except Error ShaderPassInfo :=
  match Debug.assert (nameRegexTest name) Error.InvalidName with
  | .error e => .error e
  | .ok () =>
    let self : ShaderPassInfo :=
      { index := index, name := name, defines := [], isForward := none, isShadow := none,
        lightType := none, shadowType := none }
    let self := self.assign options
    .ok self.buildShaderDefines

/-! ## `ShaderPass` -/

/-- The registry `ShaderPass`: its three fields. -/
structure ShaderPass where
  passesNamed : List (String × ShaderPassInfo)
  passesIndexed : List (Option ShaderPassInfo)
  nextIndex : Nat
deriving DecidableEq, Repr

/-- The field initialisers of `ShaderPass`, before the constructor body runs. -/
def ShaderPass.initial : ShaderPass :=
  { passesNamed := [], passesIndexed := [], nextIndex := 0 }

/-- `ShaderPass.allocate(name, options)`: the result of the call and the registry after
it. An exception of the `ShaderPassInfo` constructor leaves before any field is
written. -/
def ShaderPass.allocate (self : ShaderPass) (name : String) (options : Options) :
    Except Error ShaderPassInfo × ShaderPass :=
  match JSMap.get self.passesNamed name with
  | some info => (.ok info, self)
  | none =>
    match ShaderPassInfo.new name self.nextIndex options with
    | .error e => (.error e, self)
    | .ok info =>
      (.ok info,
        { passesNamed := JSMap.set self.passesNamed info.name info
          passesIndexed := JSArray.set self.passesIndexed info.index info
          nextIndex := self.nextIndex + 1 })

/-- The local helper `add` of the `ShaderPass` constructor. -/
def ShaderPass.add (self : ShaderPass) (name : String) (index : Nat) (options : Options) :
    Except Error ShaderPass :=
  match self.allocate name options with
  | (.error e, _) => .error e
  | (.ok info, self') =>
    match Debug.assert (decide (info.index = index)) Error.AssertionFailed with
    | .error e => .error e
    | .ok () => .ok self'

/-- The constructor `new ShaderPass()`. -/
def ShaderPass.new : Except Error ShaderPass :=
  match ShaderPass.initial.add "forward" SHADER_FORWARD { isForward := some true } with
  | .error e => .error e
  | .ok s1 =>
    match s1.add "prepass" SHADER_PREPASS {} with
    | .error e => .error e
    | .ok s2 =>
      match s2.add "shadow" SHADER_SHADOW {} with
      | .error e => .error e
      | .ok s3 => s3.add "pick" SHADER_PICK {}

/-- `ShaderPass.getByIndex(index)`. -/
def ShaderPass.getByIndex (self : ShaderPass) (index : Int) : Except Error ShaderPassInfo :=
  match JSArray.get self.passesIndexed index with
  | none => .error Error.OutOfRange
  | some info => .ok info

/-- `ShaderPass.getByName(name)`. -/
def ShaderPass.getByName (self : ShaderPass) (name : String) : Option ShaderPassInfo :=
  JSMap.get self.passesNamed name

/-! ## WebGPU bind groups -/

/-- A native `GPUBuffer`, known by its identity. -/
abbrev GPUBuffer := Nat

/-- A native `GPUTextureView`, known by its identity. -/
abbrev GPUTextureView := Nat

/-- A native `GPUBindGroupLayout`, known by its identity. -/
abbrev GPUBindGroupLayout := Nat

/-- The graphics device, known by its identity. -/
abbrev Device := Nat

/-- A native `GPUSampler`: its identity and its label. -/
structure GPUSampler where
  id : Nat
  label : String
deriving DecidableEq, Repr

/-- A uniform buffer slot of a bind group format. -/
structure BindUniformBufferFormat where
  slot : Nat
deriving DecidableEq, Repr

/-- A texture slot of a bind group format. -/
structure BindTextureFormat where
  slot : Nat
  hasSampler : Bool
  sampleType : String
  name : String
deriving DecidableEq, Repr

/-- A storage texture slot of a bind group format. -/
structure BindStorageTextureFormat where
  slot : Nat
  name : String
deriving DecidableEq, Repr

/-- A storage buffer slot of a bind group format. -/
structure BindStorageBufferFormat where
  slot : Nat
deriving DecidableEq, Repr

/-- The fields of a bind group format that `createDescriptor` reads; `bindGroupLayout` is
`format.impl.bindGroupLayout`. -/
structure BindGroupFormat where
  uniformBufferFormats : List BindUniformBufferFormat
  textureFormats : List BindTextureFormat
  storageTextureFormats : List BindStorageTextureFormat
  storageBufferFormats : List BindStorageBufferFormat
  bindGroupLayout : GPUBindGroupLayout
deriving DecidableEq, Repr

/-- The fields of a uniform buffer that `createDescriptor` reads: `persistent`,
`impl.buffer`, `allocation.gpuBuffer.buffer` and `format.byteSize`. -/
structure UniformBuffer where
  persistent : Bool
  implBuffer : Option GPUBuffer
  allocationBuffer : Option GPUBuffer
  byteSize : Nat
deriving DecidableEq, Repr

/-- The two methods of `texture.impl` (a `WebgpuTexture`) that `createDescriptor` calls. -/
structure Texture where
  getView : Device → Option GPUTextureView
  getSampler : Device → String → Option GPUSampler

/-- The field of a storage buffer that `createDescriptor` reads: `impl.buffer`. -/
structure StorageBuffer where
  implBuffer : Option GPUBuffer
deriving DecidableEq, Repr

/-- The fields of a bind group that `update` and `createDescriptor` read. -/
structure BindGroup where
  device : Device
  format : BindGroupFormat
  uniformBuffers : List UniformBuffer
  textures : List Texture
  storageTextures : List Texture
  storageBuffers : List StorageBuffer
  name : String

/-- The `resource` of a descriptor entry. A buffer resource is an object with a `buffer`
field and, when the source writes them, `offset` and `size` fields; the other two kinds
are the view or sampler itself. The native values are the (possibly null) values the
source has at hand. -/
inductive GPUBindingResource where
  | bufferBinding (buffer : Option GPUBuffer) (offset : Option Nat) (size : Option Nat)
  | textureView (view : Option GPUTextureView)
  | sampler (sampler : Option GPUSampler)
deriving DecidableEq, Repr

/-- One element of `entries`. -/
structure GPUBindGroupEntry where
  binding : Nat
  resource : GPUBindingResource
deriving DecidableEq, Repr

/-- The descriptor `createDescriptor` returns. -/
structure GPUBindGroupDescriptor where
  layout : GPUBindGroupLayout
  entries : List GPUBindGroupEntry
  label : Option String
deriving DecidableEq, Repr

/-- The fields of a `WebgpuBindGroup`: the native bind group and, written by the debug
callbacks only, `debugFormat`. -/
structure WebgpuBindGroup where
  bindGroup : Option Nat
  debugFormat : Option String
deriving DecidableEq, Repr

/-- What the loops of `createDescriptor` write to: the local `entries` and
`this.debugFormat`. -/
structure DescriptorState where
  entries : List GPUBindGroupEntry
  debugFormat : String
deriving DecidableEq, Repr

/-- Modelled from the spec: `Debug.call` of `core/debug.js` (not among the sources), in the
debug configuration, where it runs its callback. Every callback in `createDescriptor`
appends to `this.debugFormat`. -/
def Debug.call (f : String → String) (st : DescriptorState) : DescriptorState :=
  { st with debugFormat := f st.debugFormat }

/-- The statement `entries.push(entry)`. -/
def DescriptorState.push (st : DescriptorState) (entry : GPUBindGroupEntry) :
    DescriptorState :=
  { st with entries := st.entries ++ [entry] }

/-- `Array.prototype.forEach` with a callback `(element, index)` that may throw: the
callback runs on the elements in order, the index counting from `i`, and an
exception ends the loop. The state written so far is returned in both cases. -/
def forEach {α : Type} (f : DescriptorState → α → Nat → Except Error Unit × DescriptorState) :
    List α → Nat → DescriptorState → Except Error Unit × DescriptorState
  | [], _, st => (.ok (), st)
  | x :: xs, i, st =>
    match f st x i with
    | (.error e, st') => (.error e, st')
    | (.ok (), st') => forEach f xs (i + 1) st'

/-- The callback of the uniform buffer loop. -/
def uniformBufferStep (uniformBufferFormats : List BindUniformBufferFormat)
    (st : DescriptorState) (ub : UniformBuffer) (i : Nat) :
    Except Error Unit × DescriptorState :=
  match uniformBufferFormats[i]? with
  | none => (.error Error.TypeError, st)
  | some f =>
    let slot := f.slot
    let buffer := if ub.persistent then ub.implBuffer else ub.allocationBuffer
    match Debug.assert buffer.isSome Error.NullResource with
    | .error e => (.error e, st)
    | .ok () =>
      let st := Debug.call (fun d => d ++ toString slot ++ ": UB\n") st
      (.ok (), st.push
        { binding := slot
          resource := .bufferBinding buffer (some 0) (some ub.byteSize) })

/-- The callback of the texture loop. -/
def textureStep (device : Device) (format : BindGroupFormat) (st : DescriptorState)
    (tex : Texture) (textureIndex : Nat) : Except Error Unit × DescriptorState :=
  match format.textureFormats[textureIndex]? with
  | none => (.error Error.TypeError, st)
  | some textureFormat =>
    let slot := textureFormat.slot
    let view := tex.getView device
    match Debug.assert view.isSome Error.NullResource with
    | .error e => (.error e, st)
    | .ok () =>
      let st := Debug.call (fun d => d ++ toString slot ++ ": " ++ textureFormat.name ++ "\n") st
      let st := st.push { binding := slot, resource := .textureView view }
      if textureFormat.hasSampler then
        let sampler := tex.getSampler device textureFormat.sampleType
        match Debug.assert sampler.isSome Error.NullResource with
        | .error e => (.error e, st)
        | .ok () =>
          match sampler with
          | none => (.error Error.TypeError, st)
          | some s =>
            let st := Debug.call (fun d => d ++ toString (slot + 1) ++ ": " ++ s.label ++ "\n") st
            (.ok (), st.push { binding := slot + 1, resource := .sampler sampler })
      else (.ok (), st)

/-- The callback of the storage texture loop. -/
def storageTextureStep (device : Device)
    (storageTextureFormats : List BindStorageTextureFormat) (st : DescriptorState)
    (tex : Texture) (textureIndex : Nat) : Except Error Unit × DescriptorState :=
  match storageTextureFormats[textureIndex]? with
  | none => (.error Error.TypeError, st)
  | some f =>
    let slot := f.slot
    let view := tex.getView device
    match Debug.assert view.isSome Error.NullResource with
    | .error e => (.error e, st)
    | .ok () =>
      let st := Debug.call (fun d => d ++ toString slot ++ ": " ++ f.name ++ "\n") st
      (.ok (), st.push { binding := slot, resource := .textureView view })

/-- The callback of the storage buffer loop. -/
def storageBufferStep (storageBufferFormats : List BindStorageBufferFormat)
    (st : DescriptorState) (buffer : StorageBuffer) (bufferIndex : Nat) :
    Except Error Unit × DescriptorState :=
  let wgpuBuffer := buffer.implBuffer
  match storageBufferFormats[bufferIndex]? with
  | none => (.error Error.TypeError, st)
  | some f =>
    let slot := f.slot
    match Debug.assert wgpuBuffer.isSome Error.NullResource with
    | .error e => (.error e, st)
    | .ok () =>
      let st := Debug.call (fun d => d ++ toString slot ++ ": SB\n") st
      (.ok (), st.push { binding := slot, resource := .bufferBinding wgpuBuffer none none })

/-- `WebgpuBindGroup.createDescriptor(device, bindGroup)`: the descriptor or the exception,
and the `WebgpuBindGroup` after the call. `DebugHelper.setLabel` (of `core/debug.js`)
is taken to set the `label` of the descriptor to the name of the bind group, as the
specification describes for debug configurations. -/
def WebgpuBindGroup.createDescriptor (self : WebgpuBindGroup) (device : Device)
    (bindGroup : BindGroup) : Except Error GPUBindGroupDescriptor × WebgpuBindGroup :=
  let format := bindGroup.format
  let st : DescriptorState := { entries := [], debugFormat := "" }
  match forEach (uniformBufferStep bindGroup.format.uniformBufferFormats)
      bindGroup.uniformBuffers 0 st with
  | (.error e, st) => (.error e, { self with debugFormat := some st.debugFormat })
  | (.ok (), st) =>
    match forEach (textureStep device format) bindGroup.textures 0 st with
    | (.error e, st) => (.error e, { self with debugFormat := some st.debugFormat })
    | (.ok (), st) =>
      match forEach (storageTextureStep device bindGroup.format.storageTextureFormats)
          bindGroup.storageTextures 0 st with
      | (.error e, st) => (.error e, { self with debugFormat := some st.debugFormat })
      | (.ok (), st) =>
        match forEach (storageBufferStep bindGroup.format.storageBufferFormats)
            bindGroup.storageBuffers 0 st with
        | (.error e, st) => (.error e, { self with debugFormat := some st.debugFormat })
        | (.ok (), st) =>
          (.ok
            { layout := bindGroup.format.bindGroupLayout
              entries := st.entries
              label := some bindGroup.name },
            { self with debugFormat := some st.debugFormat })

/-- `WebgpuBindGroup.destroy()`. -/
def WebgpuBindGroup.destroy (self : WebgpuBindGroup) : WebgpuBindGroup :=
  { self with bindGroup := none }

/-- `WebgpuBindGroup.update(bindGroup)`: the exception of `createDescriptor`, if any, and the
`WebgpuBindGroup` after the call. The native call `device.wgpu.createBindGroup` is the
parameter `createBindGroup`. `WebgpuDebug.validate` and `WebgpuDebug.end` (of
`webgpu-debug.js`, not among the sources) only bracket the native call, as the
specification says, and write no field of the `WebgpuBindGroup`. -/
def WebgpuBindGroup.update (createBindGroup : Device → GPUBindGroupDescriptor → Nat)
    (self : WebgpuBindGroup) (bindGroup : BindGroup) : Except Error Unit × WebgpuBindGroup :=
  let self := self.destroy
  let device := bindGroup.device
  match self.createDescriptor device bindGroup with
  | (.error e, self) => (.error e, self)
  | (.ok desc, self) => (.ok (), { self with bindGroup := some (createBindGroup device desc) })

/-- The state of a `WebgpuBindGroup` right after `new WebgpuBindGroup()`. -/
def WebgpuBindGroup.new : WebgpuBindGroup :=
  { bindGroup := none, debugFormat := none }

/-! ## The device cache and `ShaderPass.get` -/

/-- Modelled from the spec: the `DeviceCache` of `platform/graphics/device-cache.js`, a file
that is not among the sources: an associative store keyed by the identity of a device,
with one value per device. -/
structure DeviceCache (α : Type) where
  entries : List (Device × α)

/-- Modelled from the spec: the lookup of a `DeviceCache`, devices compared by identity. -/
def DeviceCache.find {α : Type} (cache : DeviceCache α) (device : Device) : Option α :=
  match cache.entries.find? (fun p => p.1 == device) with
  | some p => some p.2
  | none => none

/-- Modelled from the spec: after `store` the cache holds the value under the device, in
place of any value held under that device before; other devices are not touched. -/
def DeviceCache.store {α : Type} (cache : DeviceCache α) (device : Device) (v : α) :
    DeviceCache α :=
  { entries := (device, v) :: cache.entries.filter (fun p => !(p.1 == device)) }

/-- Modelled from the spec: `DeviceCache.get(device, factory)` "returns the cached value for
`device`, constructing it via `factory()` and storing it on first access; subsequent calls
for the same device return the same instance without re-invoking `factory`". The result
and the cache after the call. -/
def DeviceCache.get {α : Type} (cache : DeviceCache α) (device : Device)
    (factory : Unit → Except Error α) : Except Error α × DeviceCache α :=
  match cache.find device with
  | some v => (.ok v, cache)
  | none =>
    match factory () with
    | .error e => (.error e, cache)
    | .ok v => (.ok v, cache.store device v)

/-- The static `ShaderPass.get(device)`, on the module-level cache `shaderPassDeviceCache`,
which is passed in and returned. The assertion on `device` holds for every device
object. -/
def ShaderPass.get (shaderPassDeviceCache : DeviceCache ShaderPass) (device : Device) :
    Except Error ShaderPass × DeviceCache ShaderPass :=
  DeviceCache.get shaderPassDeviceCache device (fun _ => ShaderPass.new)

/-- The call `ShaderPass.get(device).allocate(name, options)`. The cache holds the registry
object itself, so what `allocate` writes to the registry is what the cache holds under
the device afterwards. -/
def ShaderPass.allocateOn (shaderPassDeviceCache : DeviceCache ShaderPass) (device : Device)
    (name : String) (options : Options) :
    Except Error ShaderPassInfo × DeviceCache ShaderPass :=
  match ShaderPass.get shaderPassDeviceCache device with
  | (.error e, cache) => (.error e, cache)
  | (.ok registry, cache) =>
    ((registry.allocate name options).1, cache.store device (registry.allocate name options).2)

/-! ## `AssetReference` -/

/-- A thrown JavaScript `Error`, known by its message. -/
structure JSError where
  message : String
deriving DecidableEq, Repr

/-- One event subscription held by the asset registry: the handle returned to the
subscriber, the event name, and whether it was made with `once`. -/
structure Subscription where
  handle : Nat
  event : String
  once : Bool
deriving DecidableEq, Repr

/-- Modelled from the spec: the `AssetRegistry` of `asset-registry.js`, a file that is not
among the sources and that the specification only names as an external collaborator.
The model keeps what the calls in `asset-reference.js` show of it: the lookups
`get(id)` and `getByUrl(url)`, given by the assets registered under ids and urls, and
the event subscriptions made with `on` and `once` and ended with `off` on the handle.
Assets are known by their identity. -/
structure AssetRegistry where
  byId : List (Int × Nat)
  byUrl : List (String × Nat)
  subscriptions : List Subscription
  nextHandle : Nat
deriving DecidableEq, Repr

/-- Modelled from the spec: `registry.get(id)`, not found for `null`. -/
def AssetRegistry.get (r : AssetRegistry) : Option Int → Option Nat
  | none => none
  | some id => r.byId.lookup id

/-- Modelled from the spec: `registry.getByUrl(url)`, not found for `null`. -/
def AssetRegistry.getByUrl (r : AssetRegistry) : Option String → Option Nat
  | none => none
  | some url => r.byUrl.lookup url

/-- Modelled from the spec: `registry.on(name, ...)` and `registry.once(name, ...)`: a new
subscription, whose handle is returned. -/
def AssetRegistry.subscribe (r : AssetRegistry) (event : String) (once : Bool) :
    Nat × AssetRegistry :=
  (r.nextHandle,
    { r with
      subscriptions := r.subscriptions ++ [{ handle := r.nextHandle, event := event, once := once }]
      nextHandle := r.nextHandle + 1 })

/-- Modelled from the spec: `handle?.off()`: nothing for a null handle, otherwise the
subscription of the handle ends. -/
def AssetRegistry.off (r : AssetRegistry) : Option Nat → AssetRegistry
  | none => r
  | some h => { r with subscriptions := r.subscriptions.filter (fun s => !(s.handle == h)) }

/-- The fields of an `AssetReference` that its setters read or write. `registry` is the
state of the registry object `_registry` refers to; the four callbacks are known by
whether they are there. `propertyName`, `parent` and `_scope` are only passed on to the
callbacks. -/
structure AssetReference where
  _evtLoadById : Option Nat
  _evtUnloadById : Option Nat
  _evtAddById : Option Nat
  _evtRemoveById : Option Nat
  _evtLoadByUrl : Option Nat
  _evtAddByUrl : Option Nat
  _evtRemoveByUrl : Option Nat
  registry : AssetRegistry
  _id : Option Int
  _url : Option String
  asset : Option Nat
  _onAssetLoad : Bool
  _onAssetAdd : Bool
  _onAssetRemove : Bool
  _onAssetUnload : Bool
deriving DecidableEq, Repr

/-- JavaScript truthiness of an id: a number other than 0 (`null` and `undefined` are
falsy). -/
def truthyId : Option Int → Bool
  | some n => decide (n ≠ 0)
  | none => false

/-- JavaScript truthiness of a url: a string other than the empty one. -/
def truthyUrl : Option String → Bool
  | some u => decide (u ≠ "")
  | none => false

/-- The text JavaScript splices into a template literal for an id. -/
def idText : Option Int → String
  | some n => toString n
  | none => "null"

/-- The text JavaScript splices into a template literal for a url. -/
def urlText : Option String → String
  | some u => u
  | none => "null"

/-- `AssetReference._unbind()`. -/
def AssetReference._unbind (self : AssetReference) : AssetReference :=
  let self :=
    if truthyId self._id then
      { self with
        registry := (((self.registry.off self._evtLoadById).off self._evtAddById).off
          self._evtRemoveById).off self._evtUnloadById
        _evtLoadById := none
        _evtAddById := none
        _evtRemoveById := none
        _evtUnloadById := none }
    else self
  if truthyUrl self._url then
    { self with
      registry := ((self.registry.off self._evtLoadByUrl).off self._evtAddByUrl).off
        self._evtRemoveByUrl
      _evtLoadByUrl := none
      _evtAddByUrl := none
      _evtRemoveByUrl := none }
  else self

/-- One line of `_bind`: when the callback is there, subscribe and keep the handle. -/
def bindOne (callback : Bool) (event : String) (once : Bool)
    (st : Option Nat × AssetRegistry) : Option Nat × AssetRegistry :=
  if callback then
    (some (st.2.subscribe event once).1, (st.2.subscribe event once).2)
  else st

/-- `AssetReference._bind()`. -/
def AssetReference._bind (self : AssetReference) : AssetReference :=
  let self :=
    if truthyId self._id then
      let l := bindOne self._onAssetLoad ("load:" ++ idText self._id) false
        (self._evtLoadById, self.registry)
      let a := bindOne self._onAssetAdd ("add:" ++ idText self._id) true
        (self._evtAddById, l.2)
      let r := bindOne self._onAssetRemove ("remove:" ++ idText self._id) false
        (self._evtRemoveById, a.2)
      let u := bindOne self._onAssetUnload ("unload:" ++ idText self._id) false
        (self._evtUnloadById, r.2)
      { self with
        _evtLoadById := l.1, _evtAddById := a.1, _evtRemoveById := r.1, _evtUnloadById := u.1
        registry := u.2 }
    else self
  if truthyUrl self._url then
    let l := bindOne self._onAssetLoad ("load:url:" ++ urlText self._url) false
      (self._evtLoadByUrl, self.registry)
    let a := bindOne self._onAssetAdd ("add:url:" ++ urlText self._url) true
      (self._evtAddByUrl, l.2)
    let r := bindOne self._onAssetRemove ("remove:url:" ++ urlText self._url) false
      (self._evtRemoveByUrl, a.2)
    { self with
      _evtLoadByUrl := l.1, _evtAddByUrl := a.1, _evtRemoveByUrl := r.1, registry := r.2 }
  else self

/-- The setter `set id(value)`: the exception, if any, and the reference after the
call. -/
def AssetReference.setId (self : AssetReference) (value : Option Int) :
    Except JSError Unit × AssetReference :=
  if truthyUrl self._url then (.error { message := "Can't set id and url" }, self)
  else
    let self := self._unbind
    let self := { self with _id := value }
    let self := { self with asset := self.registry.get self._id }
    (.ok (), self._bind)

/-- The setter `set url(value)`: the exception, if any, and the reference after the
call. -/
def AssetReference.setUrl (self : AssetReference) (value : Option String) :
    Except JSError Unit × AssetReference :=
  if truthyId self._id then (.error { message := "Can't set id and url" }, self)
  else
    let self := self._unbind
    let self := { self with _url := value }
    let self := { self with asset := self.registry.getByUrl self._url }
    (.ok (), self._bind)

/-- The constructor `new AssetReference(propertyName, parent, registry, callbacks, scope)`:
the fields start out `null` or `undefined`, then `this.id = null`, `this.url = null`
and `this.asset = null` run, then the callbacks are stored. -/
def AssetReference.new (registry : AssetRegistry) (load add remove unload : Bool) :
    Except JSError AssetReference :=
  let self : AssetReference :=
    { _evtLoadById := none, _evtUnloadById := none, _evtAddById := none,
      _evtRemoveById := none, _evtLoadByUrl := none, _evtAddByUrl := none,
      _evtRemoveByUrl := none, registry := registry, _id := none, _url := none,
      asset := none, _onAssetLoad := false, _onAssetAdd := false, _onAssetRemove := false,
      _onAssetUnload := false }
  match self.setId none with
  | (.error e, _) => .error e
  | (.ok (), self) =>
    match self.setUrl none with
    | (.error e, _) => .error e
    | (.ok (), self) =>
      .ok { self with
        asset := none, _onAssetLoad := load, _onAssetAdd := add, _onAssetRemove := remove,
        _onAssetUnload := unload }

/-- One use of a setter of an `AssetReference`. -/
inductive SetterCall where
  | id (value : Option Int)
  | url (value : Option String)
deriving DecidableEq, Repr

/-- The reference after a setter call, whether the call threw or not. -/
def AssetReference.afterCall (self : AssetReference) : SetterCall → AssetReference
  | .id value => (self.setId value).2
  | .url value => (self.setUrl value).2

/-- The reference after a sequence of setter calls. -/
def AssetReference.afterCalls (self : AssetReference) : List SetterCall → AssetReference
  | [] => self
  | c :: cs => AssetReference.afterCalls (self.afterCall c) cs

/-- The states of an `AssetReference` reachable from construction through its `id` and `url`
setters. -/
def AssetReference.ReachableBySetters (r : AssetReference) : Prop :=
  ∃ registry load add remove unload r0 calls,
    AssetReference.new registry load add remove unload = .ok r0 ∧ r = r0.afterCalls calls

/-! ## Notions used in the statements -/

/-- The registry after a sequence of `allocate` calls, made one after the other; a call that
throws leaves the registry as `allocate` left it. -/
def ShaderPass.allocateAll (self : ShaderPass) : List (String × Options) → ShaderPass
  | [] => self
  | c :: cs => ShaderPass.allocateAll (self.allocate c.1 c.2).2 cs

/-- The registry states reachable from construction by `allocate` calls whose options carry
documented fields only. -/
def Reachable (s : ShaderPass) : Prop :=
  ∃ s0 calls, ShaderPass.new = .ok s0 ∧ (∀ c ∈ calls, Options.documented c.2) ∧
    s = s0.allocateAll calls

/-- The registry a successful `new ShaderPass()` leaves. -/
def freshRegistry : ShaderPass :=
  match ShaderPass.new with
  | .ok s => s
  | .error _ => ShaderPass.initial

/-- The identifier pattern of the specification, `[A-Za-z][A-Za-z0-9_]*`: non-empty, an ASCII
letter first, then ASCII letters, digits and underscores only. -/
def matchesIdentifierPattern (name : String) : Bool :=
  match name.data with
  | [] => false
  | c :: cs =>
    (decide ('A' ≤ c ∧ c ≤ 'Z') || decide ('a' ≤ c ∧ c ≤ 'z')) &&
      cs.all (fun d => decide ('A' ≤ d ∧ d ≤ 'Z') || decide ('a' ≤ d ∧ d ≤ 'z') ||
        decide ('0' ≤ d ∧ d ≤ '9') || decide (d = '_'))

/-- The defines that `new ShaderPassInfo(name, index, options)` builds. -/
def definesBuiltFrom (name : String) (index : Nat) (options : Options) :
    List (String × String) :=
  match ShaderPassInfo.new name index options with
  | .ok info => info.defines
  | .error _ => []

/-- The keyword the specification selects for a pass with one of the two flags set:
`SHADOW` when `isShadow` is `true`, `FORWARD` otherwise. -/
def flagKeyword (options : Options) : String :=
  if options.isShadow = some true then "SHADOW" else "FORWARD"

/-- The alphabet: every lower-case ASCII letter next to its upper-case form. -/
def alphabetTable : List (Char × Char) :=
  List.zip "abcdefghijklmnopqrstuvwxyz".data "ABCDEFGHIJKLMNOPQRSTUVWXYZ".data

/-- The upper-case form of a character of a pass name, read off the alphabet: a lower-case
letter becomes its upper-case letter, any other character stays as it is. -/
def upperCaseLetter (c : Char) : Char :=
  match List.lookup c alphabetTable with
  | some u => u
  | none => c

/-- A pass name in upper case, letter by letter. -/
def nameUpperCased (name : String) : String :=
  String.mk (name.data.map upperCaseLetter)

/-- The shape of a registry that was only used with documented options: the name map lists
the infos in allocation order, which is also their index order. -/
structure WellFormed (s : ShaderPass) : Prop where
  indexed_eq : s.passesIndexed = s.passesNamed.map (fun p => some p.2)
  next_eq : s.nextIndex = s.passesNamed.length
  index_eq : s.passesNamed.map (fun p => p.2.index) = List.range s.passesNamed.length
  name_eq : ∀ p ∈ s.passesNamed, p.2.name = p.1
  valid : ∀ p ∈ s.passesNamed, nameRegexTest p.1 = true
  nodup : (s.passesNamed.map Prod.fst).Nodup

/-- The four resource lists of a bind group have the lengths of the corresponding lists of
its format. -/
def BindGroup.matchesFormat (bg : BindGroup) : Prop :=
  bg.uniformBuffers.length = bg.format.uniformBufferFormats.length ∧
  bg.textures.length = bg.format.textureFormats.length ∧
  bg.storageTextures.length = bg.format.storageTextureFormats.length ∧
  bg.storageBuffers.length = bg.format.storageBufferFormats.length

/-- Every resource `createDescriptor` asks for resolves to a native object: the buffer of
each uniform and storage buffer, the view of each texture and storage texture, and the
sampler of each texture whose format slot has a sampler. -/
def BindGroup.populated (device : Device) (bg : BindGroup) : Prop :=
  (∀ ub ∈ bg.uniformBuffers,
    (if ub.persistent then ub.implBuffer else ub.allocationBuffer).isSome = true) ∧
  (∀ p ∈ List.zip bg.format.textureFormats bg.textures,
    (p.2.getView device).isSome = true ∧
      (p.1.hasSampler = true → (p.2.getSampler device p.1.sampleType).isSome = true)) ∧
  (∀ t ∈ bg.storageTextures, (t.getView device).isSome = true) ∧
  (∀ b ∈ bg.storageBuffers, b.implBuffer.isSome = true)

/-- No resource list of a bind group is longer than the corresponding list of its
format. -/
def BindGroup.fitsFormat (bg : BindGroup) : Prop :=
  bg.uniformBuffers.length ≤ bg.format.uniformBufferFormats.length ∧
  bg.textures.length ≤ bg.format.textureFormats.length ∧
  bg.storageTextures.length ≤ bg.format.storageTextureFormats.length ∧
  bg.storageBuffers.length ≤ bg.format.storageBufferFormats.length

/-- One line of the report: the binding number, a colon and a blank, a text, a newline. -/
def reportLine (binding : Nat) (text : String) : String :=
  toString binding ++ ": " ++ text ++ "\n"

/-- The entry of a uniform buffer next to the text of its report line. -/
def uniformBufferItem (f : BindUniformBufferFormat) (ub : UniformBuffer) :
    GPUBindGroupEntry × String :=
  ({ binding := f.slot
     resource := .bufferBinding (if ub.persistent then ub.implBuffer else ub.allocationBuffer)
       (some 0) (some ub.byteSize) }, "UB")

/-- The entries of a texture next to the texts of their report lines: the view under the
name of the format slot and, when the slot has a sampler, the sampler under its label. -/
def textureItems (device : Device) (f : BindTextureFormat) (tex : Texture) :
    List (GPUBindGroupEntry × String) :=
  ({ binding := f.slot, resource := .textureView (tex.getView device) }, f.name) ::
    (if f.hasSampler then
      [({ binding := f.slot + 1, resource := .sampler (tex.getSampler device f.sampleType) },
        match tex.getSampler device f.sampleType with
        | some s => s.label
        | none => "")]
    else [])

/-- The entry of a storage texture next to the text of its report line. -/
def storageTextureItem (device : Device) (f : BindStorageTextureFormat) (tex : Texture) :
    GPUBindGroupEntry × String :=
  ({ binding := f.slot, resource := .textureView (tex.getView device) }, f.name)

/-- The entry of a storage buffer next to the text of its report line. -/
def storageBufferItem (f : BindStorageBufferFormat) (b : StorageBuffer) :
    GPUBindGroupEntry × String :=
  ({ binding := f.slot, resource := .bufferBinding b.implBuffer none none }, "SB")

/-- The entries the specification lists for a bind group, each next to the text of its
report line: uniform buffers, textures (with samplers), storage textures, storage
buffers, each resource paired with the format slot at its position. -/
def descriptorItems (device : Device) (bg : BindGroup) : List (GPUBindGroupEntry × String) :=
  List.zipWith uniformBufferItem bg.format.uniformBufferFormats bg.uniformBuffers ++
    (List.zipWith (textureItems device) bg.format.textureFormats bg.textures).flatten ++
    List.zipWith (storageTextureItem device) bg.format.storageTextureFormats
      bg.storageTextures ++
    List.zipWith storageBufferItem bg.format.storageBufferFormats bg.storageBuffers

/-- The report built from a list of entries and texts, starting from the text `d`. -/
def reportOf (items : List (GPUBindGroupEntry × String)) (d : String) : String :=
  items.foldl (fun acc it => acc ++ reportLine it.1.binding it.2) d

/-- The bindings a texture slot stands for: its slot, followed by the next slot when the
slot has a sampler. -/
def textureBindings (t : BindTextureFormat) : List Nat :=
  if t.hasSampler then [t.slot, t.slot + 1] else [t.slot]

/-- The bindings a format stands for, in the order of the specification: uniform buffers,
textures (each with its sampler), storage textures, storage buffers. -/
def expectedBindings (f : BindGroupFormat) : List Nat :=
  f.uniformBufferFormats.map (fun u => u.slot) ++
    (f.textureFormats.map textureBindings).flatten ++
    f.storageTextureFormats.map (fun t => t.slot) ++
    f.storageBufferFormats.map (fun b => b.slot)

/-- A bind group whose format has one texture slot without a sampler and whose only
texture has no view. -/
def nullViewBindGroup : BindGroup :=
  { device := 0
    format :=
      { uniformBufferFormats := []
        textureFormats := [{ slot := 0, hasSampler := false, sampleType := "float", name := "map" }]
        storageTextureFormats := []
        storageBufferFormats := []
        bindGroupLayout := 7 }
    uniformBuffers := []
    textures := [{ getView := fun _ => none, getSampler := fun _ _ => none }]
    storageTextures := []
    storageBuffers := []
    name := "nullView" }

/-- The bind group of the example in the specification: a uniform buffer at slot 0, a
texture with its sampler at slots 1 and 2, a storage buffer at slot 3, every resource
present. -/
def exampleBindGroup : BindGroup :=
  { device := 0
    format :=
      { uniformBufferFormats := [{ slot := 0 }]
        textureFormats := [{ slot := 1, hasSampler := true, sampleType := "float", name := "map" }]
        storageTextureFormats := []
        storageBufferFormats := [{ slot := 3 }]
        bindGroupLayout := 7 }
    uniformBuffers :=
      [{ persistent := true, implBuffer := some 10, allocationBuffer := none, byteSize := 64 }]
    textures :=
      [{ getView := fun _ => some 20
         getSampler := fun _ _ => some { id := 30, label := "sampler" } }]
    storageTextures := []
    storageBuffers := [{ implBuffer := some 40 }]
    name := "example" }

/-- The bind group of the example with its storage buffer left out: the format declares a
storage buffer slot, the bind group supplies no storage buffer. -/
def missingStorageBufferBindGroup : BindGroup :=
  { exampleBindGroup with storageBuffers := [], name := "missingStorageBuffer" }

/-- The bind group of the example with a second uniform buffer, for which the format has no
slot. -/
def extraUniformBufferBindGroup : BindGroup :=
  { exampleBindGroup with
    uniformBuffers :=
      [{ persistent := true, implBuffer := some 10, allocationBuffer := none, byteSize := 64 },
       { persistent := false, implBuffer := none, allocationBuffer := some 11, byteSize := 16 }]
    name := "extraUniformBuffer" }

/-- A bind group of storage resources only: a storage texture at slot 0 and a storage
buffer at slot 1. -/
def storageBindGroup : BindGroup :=
  { device := 0
    format :=
      { uniformBufferFormats := []
        textureFormats := []
        storageTextureFormats := [{ slot := 0, name := "outTexture" }]
        storageBufferFormats := [{ slot := 1 }]
        bindGroupLayout := 8 }
    uniformBuffers := []
    textures := []
    storageTextures := [{ getView := fun _ => some 21, getSampler := fun _ _ => none }]
    storageBuffers := [{ implBuffer := some 41 }]
    name := "storage" }

/-- An empty asset registry with one asset under id 5 and the same asset under a url. -/
def sampleAssetRegistry : AssetRegistry :=
  { byId := [(5, 50)], byUrl := [("a.png", 50)], subscriptions := [], nextHandle := 0 }

/-- The reference `new AssetReference(...)` builds on `sampleAssetRegistry` with a `load`
and a `remove` callback. -/
def sampleAssetReference : AssetReference :=
  match AssetReference.new sampleAssetRegistry true false true false with
  | .ok r => r
  | .error _ =>
    { _evtLoadById := none, _evtUnloadById := none, _evtAddById := none,
      _evtRemoveById := none, _evtLoadByUrl := none, _evtAddByUrl := none,
      _evtRemoveByUrl := none, registry := sampleAssetRegistry, _id := none, _url := none,
      asset := none, _onAssetLoad := false, _onAssetAdd := false, _onAssetRemove := false,
      _onAssetUnload := false }

/-- The bind group with the null texture view and, in addition, one uniform buffer for
which the format has no slot. -/
def extraUniformBufferNullViewBindGroup : BindGroup :=
  { nullViewBindGroup with
    uniformBuffers :=
      [{ persistent := true, implBuffer := some 10, allocationBuffer := none, byteSize := 64 }]
    name := "extraUniformBufferNullView" }

/-- A bind group with a null texture view whose format declares a storage buffer slot for
which the bind group supplies no storage buffer. -/
def unusedSlotNullViewBindGroup : BindGroup :=
  { nullViewBindGroup with
    format := { nullViewBindGroup.format with storageBufferFormats := [{ slot := 1 }] }
    name := "unusedSlotNullView" }

/-! ## Lemmas on the containers -/

theorem JSMap.get_eq_none_iff {α : Type} (m : List (String × α)) (k : String) :
    JSMap.get m k = none ↔ k ∉ m.map Prod.fst := by
  induction m with
  | nil => simp [JSMap.get]
  | cons p m ih =>
    obtain ⟨k', v'⟩ := p
    by_cases h : k' = k
    · simp [JSMap.get, h]
    · simp [JSMap.get, h, ih, Ne.symm h]

theorem JSMap.mem_of_get {α : Type} (m : List (String × α)) (k : String) (v : α)
    (h : JSMap.get m k = some v) : (k, v) ∈ m := by
  induction m with
  | nil => simp [JSMap.get] at h
  | cons p m ih =>
    obtain ⟨k', v'⟩ := p
    by_cases hk : k' = k
    · simp [JSMap.get, hk] at h
      simp [hk, h]
    · simp [JSMap.get, hk] at h
      exact List.mem_cons_of_mem _ (ih h)

theorem JSMap.set_of_get_none {α : Type} (m : List (String × α)) (k : String) (v : α)
    (h : JSMap.get m k = none) : JSMap.set m k v = m ++ [(k, v)] := by
  induction m with
  | nil => simp [JSMap.set]
  | cons p m ih =>
    obtain ⟨k', v'⟩ := p
    by_cases hk : k' = k
    · simp [JSMap.get, hk] at h
    · simp [JSMap.get, hk] at h
      simp [JSMap.set, hk, ih h]

theorem JSMap.get_append_of_some {α : Type} (m : List (String × α)) (k : String) (v : α)
    (p : String × α) (h : JSMap.get m k = some v) : JSMap.get (m ++ [p]) k = some v := by
  induction m with
  | nil => simp [JSMap.get] at h
  | cons q m ih =>
    obtain ⟨k', v'⟩ := q
    by_cases hk : k' = k
    · simp [JSMap.get, hk] at h
      simp [JSMap.get, hk, h]
    · simp [JSMap.get, hk] at h
      simp [JSMap.get, hk, ih h]

theorem JSMap.get_append_of_none {α : Type} (m : List (String × α)) (k : String)
    (p : String × α) (h : JSMap.get m k = none) :
    JSMap.get (m ++ [p]) k = if p.1 = k then some p.2 else none := by
  induction m with
  | nil => simp [JSMap.get]
  | cons q m ih =>
    obtain ⟨k', v'⟩ := q
    by_cases hk : k' = k
    · simp [JSMap.get, hk] at h
    · simp [JSMap.get, hk] at h
      simp [JSMap.get, hk, ih h]

theorem JSArray.set_length {α : Type} (a : List (Option α)) (v : α) :
    JSArray.set a a.length v = a ++ [some v] := by
  induction a with
  | nil => simp [JSArray.set]
  | cons x a ih => simp [JSArray.set, ih]

/-! ## Lemmas on `ShaderPassInfo` -/

theorem ShaderPassInfo.new_of_valid (name : String) (index : Nat) (o : Options)
    (h : nameRegexTest name = true) :
    ShaderPassInfo.new name index o = .ok
      (ShaderPassInfo.buildShaderDefines
        (ShaderPassInfo.assign
          { index := index, name := name, defines := [], isForward := none, isShadow := none,
            lightType := none, shadowType := none } o)) := by
  simp [ShaderPassInfo.new, Debug.assert, h]

theorem ShaderPassInfo.new_of_invalid (name : String) (index : Nat) (o : Options)
    (h : nameRegexTest name = false) :
    ShaderPassInfo.new name index o = .error Error.InvalidName := by
  simp [ShaderPassInfo.new, Debug.assert, h]

theorem ShaderPassInfo.assign_base (name : String) (index : Nat) (o : Options) :
    ShaderPassInfo.assign
        { index := index, name := name, defines := [], isForward := none, isShadow := none,
          lightType := none, shadowType := none } o =
      { index := o.index.getD index, name := o.name.getD name, defines := [],
        isForward := o.isForward, isShadow := o.isShadow, lightType := o.lightType,
        shadowType := o.shadowType } := by
  obtain ⟨f, sh, l, st, n, i⟩ := o
  cases f <;> cases sh <;> cases l <;> cases st <;> cases n <;> cases i <;> rfl

theorem ShaderPassInfo.new_ok_documented (name : String) (index : Nat) (o : Options)
    (info : ShaderPassInfo) (hdoc : o.documented)
    (h : ShaderPassInfo.new name index o = .ok info) :
    info.name = name ∧ info.index = index ∧ nameRegexTest name = true := by
  obtain ⟨hn, hi⟩ := hdoc
  by_cases hv : nameRegexTest name = true
  · rw [ShaderPassInfo.new_of_valid name index o hv] at h
    injection h with h
    subst h
    simp [ShaderPassInfo.buildShaderDefines, ShaderPassInfo.assign, hn, hi, hv]
  · simp at hv
    rw [ShaderPassInfo.new_of_invalid name index o hv] at h
    cases h

/-! ## The registry invariant is kept -/

/-- What a call of `allocate` with documented options does to a well-formed registry: either
the name is known and nothing changes, or the name check fails and nothing changes, or
the new info is appended to both lookup structures. -/
theorem ShaderPass.allocate_cases (s : ShaderPass) (name : String) (o : Options)
    (hwf : WellFormed s) (hdoc : o.documented) :
    (∃ info, JSMap.get s.passesNamed name = some info ∧ s.allocate name o = (.ok info, s)) ∨
    (JSMap.get s.passesNamed name = none ∧ nameRegexTest name = false ∧
      s.allocate name o = (.error Error.InvalidName, s)) ∨
    (∃ info, JSMap.get s.passesNamed name = none ∧ nameRegexTest name = true ∧
      ShaderPassInfo.new name s.nextIndex o = .ok info ∧
      info.name = name ∧ info.index = s.nextIndex ∧
      s.allocate name o = (.ok info,
        { passesNamed := s.passesNamed ++ [(name, info)]
          passesIndexed := s.passesIndexed ++ [some info]
          nextIndex := s.nextIndex + 1 })) := by
  cases hget : JSMap.get s.passesNamed name with
  | some info =>
    left
    exact ⟨info, rfl, by simp [ShaderPass.allocate, hget]⟩
  | none =>
    right
    cases hnew : ShaderPassInfo.new name s.nextIndex o with
    | error e =>
      left
      by_cases hv : nameRegexTest name = true
      · rw [ShaderPassInfo.new_of_valid name s.nextIndex o hv] at hnew
        cases hnew
      · simp at hv
        rw [ShaderPassInfo.new_of_invalid name s.nextIndex o hv] at hnew
        injection hnew with hnew
        subst hnew
        refine ⟨rfl, hv, ?_⟩
        simp [ShaderPass.allocate, hget, ShaderPassInfo.new_of_invalid name s.nextIndex o hv]
    | ok info =>
      right
      obtain ⟨hname, hidx, hv⟩ := ShaderPassInfo.new_ok_documented name s.nextIndex o info hdoc hnew
      refine ⟨info, rfl, hv, rfl, hname, hidx, ?_⟩
      have hlen : s.passesIndexed.length = s.nextIndex := by
        rw [hwf.indexed_eq, hwf.next_eq]; simp
      simp only [ShaderPass.allocate, hget, hnew, hname, hidx]
      rw [JSMap.set_of_get_none _ _ _ hget]
      rw [← hlen, JSArray.set_length]

theorem WellFormed.initial : WellFormed ShaderPass.initial := by
  constructor <;> simp [ShaderPass.initial]

theorem WellFormed.allocate (s : ShaderPass) (name : String) (o : Options)
    (hwf : WellFormed s) (hdoc : o.documented) : WellFormed (s.allocate name o).2 := by
  rcases ShaderPass.allocate_cases s name o hwf hdoc with
    ⟨info, _, h⟩ | ⟨_, _, h⟩ | ⟨info, hget, hv, _, hname, hidx, h⟩
  · rw [h]; exact hwf
  · rw [h]; exact hwf
  · rw [h]
    constructor
    · simp [hwf.indexed_eq]
    · simp [hwf.next_eq]
    · simp [hwf.index_eq, List.range_succ, hidx, hwf.next_eq]
    · intro p hp
      simp at hp
      rcases hp with hp | hp
      · exact hwf.name_eq p hp
      · subst hp; exact hname
    · intro p hp
      simp at hp
      rcases hp with hp | hp
      · exact hwf.valid p hp
      · subst hp; exact hv
    · simp only [List.map_append, List.map_cons, List.map_nil]
      rw [List.nodup_append]
      refine ⟨hwf.nodup, by simp, ?_⟩
      intro a ha hb
      simp at hb
      subst hb
      exact (JSMap.get_eq_none_iff _ _).1 hget ha

theorem WellFormed.allocateAll (calls : List (String × Options)) (s : ShaderPass)
    (hwf : WellFormed s) (hdoc : ∀ c ∈ calls, Options.documented c.2) :
    WellFormed (s.allocateAll calls) := by
  induction calls generalizing s with
  | nil => exact hwf
  | cons c cs ih =>
    simp only [ShaderPass.allocateAll]
    apply ih
    · exact WellFormed.allocate s c.1 c.2 hwf (hdoc c (List.mem_cons_self _ _))
    · intro d hd
      exact hdoc d (List.mem_cons_of_mem _ hd)

theorem ShaderPass.new_eq : ShaderPass.new = .ok freshRegistry := by rfl

theorem WellFormed.fresh : WellFormed freshRegistry := by
  have h1 := WellFormed.allocate ShaderPass.initial "forward" { isForward := some true }
    WellFormed.initial (by decide)
  have h2 := WellFormed.allocate _ "prepass" {} h1 (by decide)
  have h3 := WellFormed.allocate _ "shadow" {} h2 (by decide)
  have h4 := WellFormed.allocate _ "pick" {} h3 (by decide)
  exact h4

theorem reachable_wellFormed (s : ShaderPass) (h : Reachable s) : WellFormed s := by
  obtain ⟨s0, calls, h0, hdoc, rfl⟩ := h
  rw [ShaderPass.new_eq] at h0
  injection h0 with h0
  subst h0
  exact WellFormed.allocateAll calls _ WellFormed.fresh hdoc

/-! ## Lemmas on the name check -/

theorem char_le_iff_toNat (a b : Char) : a ≤ b ↔ a.toNat ≤ b.toNat := by
  rw [Char.le_def]
  exact UInt32.le_def

theorem isLetterIgnoreCase_eq (c : Char) :
    isLetterIgnoreCase c = (decide ('A' ≤ c ∧ c ≤ 'Z') || decide ('a' ≤ c ∧ c ≤ 'z')) := by
  unfold isLetterIgnoreCase Char.toUpper
  by_cases h : c.toNat ≥ 97 ∧ c.toNat ≤ 122
  · have h1 : 'a' ≤ c ∧ c ≤ 'z' := by
      rw [char_le_iff_toNat, char_le_iff_toNat]; exact h
    obtain ⟨ha, hb⟩ := h
    obtain ⟨k, hk, hc⟩ : ∃ k, k < 26 ∧ c.toNat = 97 + k := ⟨c.toNat - 97, by omega, by omega⟩
    have h3 : 'A' ≤ Char.ofNat (c.toNat - 32) ∧ Char.ofNat (c.toNat - 32) ≤ 'Z' := by
      rw [hc]
      interval_cases k <;> decide
    simp [ha, hb, h1, h3]
  · have h1 : ¬ ('a' ≤ c ∧ c ≤ 'z') := by
      rw [char_le_iff_toNat, char_le_iff_toNat]; exact h
    simp [h, h1]

theorem isWordChar_eq (d : Char) :
    isWordChar d = (decide ('A' ≤ d ∧ d ≤ 'Z') || decide ('a' ≤ d ∧ d ≤ 'z') ||
      decide ('0' ≤ d ∧ d ≤ '9') || decide (d = '_')) := by
  unfold isWordChar
  rw [Bool.or_comm (decide ('a' ≤ d ∧ d ≤ 'z'))]

theorem nameRegexTest_eq_pattern (name : String) :
    nameRegexTest name = matchesIdentifierPattern name := by
  unfold nameRegexTest matchesIdentifierPattern
  cases name.data with
  | nil => rfl
  | cons c cs =>
    simp only [isLetterIgnoreCase_eq]
    congr 1
    exact congrArg (fun f => cs.all f) (funext isWordChar_eq)

/-! ## Lemmas on lookups in a well-formed registry -/

theorem WellFormed.indexed_length (s : ShaderPass) (hwf : WellFormed s) :
    s.passesIndexed.length = s.nextIndex := by
  rw [hwf.indexed_eq, hwf.next_eq]; simp

theorem WellFormed.entry_at (s : ShaderPass) (hwf : WellFormed s) (i : Nat)
    (hi : i < s.nextIndex) :
    ∃ p, s.passesNamed[i]? = some p ∧ p.2.index = i := by
  have hlt : i < s.passesNamed.length := by rw [← hwf.next_eq]; exact hi
  refine ⟨s.passesNamed[i], List.getElem?_eq_getElem hlt, ?_⟩
  have h := congrArg (fun l => l[i]?) hwf.index_eq
  simp only [List.getElem?_map, List.getElem?_eq_getElem hlt, Option.map_some,
    List.getElem?_range hlt] at h
  injection h

theorem WellFormed.indexed_at (s : ShaderPass) (hwf : WellFormed s) (i : Nat)
    (hi : i < s.nextIndex) :
    ∃ info, s.passesIndexed[i]? = some (some info) ∧ info.index = i := by
  obtain ⟨p, hp, hidx⟩ := WellFormed.entry_at s hwf i hi
  refine ⟨p.2, ?_, hidx⟩
  rw [hwf.indexed_eq]
  simp [List.getElem?_map, hp]

theorem WellFormed.indexed_of_mem (s : ShaderPass) (hwf : WellFormed s) (k : String)
    (info : ShaderPassInfo) (hmem : (k, info) ∈ s.passesNamed) :
    info.index < s.nextIndex ∧ s.passesIndexed[info.index]? = some (some info) := by
  obtain ⟨i, hi, hget⟩ := List.getElem_of_mem hmem
  have hlt : i < s.nextIndex := by rw [hwf.next_eq]; exact hi
  obtain ⟨p, hp, hidx⟩ := WellFormed.entry_at s hwf i hlt
  rw [List.getElem?_eq_getElem hi, hget] at hp
  injection hp with hp
  subst hp
  simp only at hidx
  rw [hidx]
  refine ⟨hlt, ?_⟩
  rw [hwf.indexed_eq]
  simp [List.getElem?_map, List.getElem?_eq_getElem hi, hget]

theorem WellFormed.getByIndex_of_getByName (s : ShaderPass) (hwf : WellFormed s)
    (k : String) (info : ShaderPassInfo) (h : s.getByName k = some info) :
    s.getByIndex (info.index : Int) = .ok info := by
  have hmem := JSMap.mem_of_get _ _ _ h
  obtain ⟨_, hidx⟩ := WellFormed.indexed_of_mem s hwf k info hmem
  show ShaderPass.getByIndex s (Int.ofNat info.index) = .ok info
  simp [ShaderPass.getByIndex, JSArray.get, hidx]

theorem ShaderPass.getByName_allocate_of_some (s : ShaderPass) (hwf : WellFormed s)
    (name : String) (o : Options) (hdoc : o.documented) (k : String) (info : ShaderPassInfo)
    (h : s.getByName k = some info) : (s.allocate name o).2.getByName k = some info := by
  rcases ShaderPass.allocate_cases s name o hwf hdoc with
    ⟨_, _, ha⟩ | ⟨_, _, ha⟩ | ⟨info2, _, _, _, _, _, ha⟩
  · rw [ha]; exact h
  · rw [ha]; exact h
  · rw [ha]
    exact JSMap.get_append_of_some _ _ _ _ h

theorem ShaderPass.getByName_allocateAll_of_some (calls : List (String × Options))
    (s : ShaderPass) (hwf : WellFormed s) (hdoc : ∀ c ∈ calls, Options.documented c.2)
    (k : String) (info : ShaderPassInfo) (h : s.getByName k = some info) :
    (s.allocateAll calls).getByName k = some info := by
  induction calls generalizing s with
  | nil => exact h
  | cons c cs ih =>
    simp only [ShaderPass.allocateAll]
    apply ih
    · exact WellFormed.allocate s c.1 c.2 hwf (hdoc c (List.mem_cons_self _ _))
    · intro d hd
      exact hdoc d (List.mem_cons_of_mem _ hd)
    · exact ShaderPass.getByName_allocate_of_some s hwf c.1 c.2
        (hdoc c (List.mem_cons_self _ _)) k info h

theorem ShaderPass.getByName_allocate_of_ne (s : ShaderPass) (hwf : WellFormed s)
    (name : String) (o : Options) (hdoc : o.documented) (k : String) (hk : name ≠ k)
    (h : s.getByName k = none) : (s.allocate name o).2.getByName k = none := by
  rcases ShaderPass.allocate_cases s name o hwf hdoc with
    ⟨_, _, ha⟩ | ⟨_, _, ha⟩ | ⟨info2, _, _, _, _, _, ha⟩
  · rw [ha]; exact h
  · rw [ha]; exact h
  · rw [ha]
    show JSMap.get (s.passesNamed ++ [(name, info2)]) k = none
    rw [JSMap.get_append_of_none _ _ _ h]
    simp [hk]

theorem ShaderPass.getByName_allocateAll_of_not_mem (calls : List (String × Options))
    (s : ShaderPass) (hwf : WellFormed s) (hdoc : ∀ c ∈ calls, Options.documented c.2)
    (k : String) (hk : k ∉ calls.map Prod.fst) (h : s.getByName k = none) :
    (s.allocateAll calls).getByName k = none := by
  induction calls generalizing s with
  | nil => exact h
  | cons c cs ih =>
    simp only [ShaderPass.allocateAll]
    simp only [List.map_cons, List.mem_cons, not_or] at hk
    apply ih
    · exact WellFormed.allocate s c.1 c.2 hwf (hdoc c (List.mem_cons_self _ _))
    · intro d hd
      exact hdoc d (List.mem_cons_of_mem _ hd)
    · exact hk.2
    · exact ShaderPass.getByName_allocate_of_ne s hwf c.1 c.2
        (hdoc c (List.mem_cons_self _ _)) k (Ne.symm hk.1) h

/-! ## Theorems on the shader pass registry -/

theorem reachable_fresh : Reachable freshRegistry :=
  ⟨freshRegistry, [], ShaderPass.new_eq, by simp, rfl⟩

theorem reachable_allocate (s : ShaderPass) (h : Reachable s) (name : String) (o : Options)
    (hdoc : o.documented) : Reachable (s.allocate name o).2 := by
  obtain ⟨s0, calls, h0, hcalls, rfl⟩ := h
  refine ⟨s0, calls ++ [(name, o)], h0, ?_, ?_⟩
  · intro c hc
    simp only [List.mem_append, List.mem_singleton] at hc
    rcases hc with hc | hc
    · exact hcalls c hc
    · subst hc; exact hdoc
  · clear h0 hcalls
    induction calls generalizing s0 with
    | nil => rfl
    | cons c cs ih => exact ih _

/-- C1: `new ShaderPass()` succeeds, and the registry it builds holds exactly the four passes
`forward`, `prepass`, `shadow`, `pick`, in this order and with the indices 0, 1, 2, 3;
`passesIndexed` has length 4 (the info at position `i` has index `i`) and `nextIndex` is
4. -/
theorem shaderPass_new_default_passes :
    ∃ s, ShaderPass.new = .ok s ∧
      s.passesNamed.map Prod.fst = ["forward", "prepass", "shadow", "pick"] ∧
      (s.getByName "forward").map (fun i => i.index) = some 0 ∧
      (s.getByName "prepass").map (fun i => i.index) = some 1 ∧
      (s.getByName "shadow").map (fun i => i.index) = some 2 ∧
      (s.getByName "pick").map (fun i => i.index) = some 3 ∧
      s.passesIndexed.map (fun x => x.map (fun i => (i.name, i.index))) =
        [some ("forward", 0), some ("prepass", 1), some ("shadow", 2), some ("pick", 3)] ∧
      s.passesIndexed.length = 4 ∧ s.nextIndex = 4 :=
  ⟨freshRegistry, by rfl, by decide, by decide, by decide, by decide, by decide, by decide,
    by decide, by decide⟩

/-- C2 (as stated, refuted): on the fresh registry `allocate('forward', { isShadow: true })`
returns the existing `forward` info, whose defines are `FORWARD_PASS` only and not
the defines built from the options of this call (`SHADOW_PASS`, `FORWARD_PASS`). -/
theorem allocate_twice_defines_counterexample :
    Reachable freshRegistry ∧ Options.documented { isShadow := some true } ∧
    ∃ info, (freshRegistry.allocate "forward" { isShadow := some true }).1 = .ok info ∧
      info.defines = [("FORWARD_PASS", "")] ∧
      definesBuiltFrom "forward" info.index { isShadow := some true } =
        [("SHADOW_PASS", ""), ("FORWARD_PASS", "")] ∧
      info.defines ≠ definesBuiltFrom "forward" info.index { isShadow := some true } :=
  ⟨reachable_fresh, by decide,
    { index := 0, name := "forward", defines := [("FORWARD_PASS", "")],
      isForward := some true, isShadow := none, lightType := none, shadowType := none },
    by rfl, by rfl, by rfl, by decide⟩

/-- C2 (amended): in every reachable registry, for every name, documented options `o1` and
any options `o2`, the call `allocate(name, o2)` made right after `allocate(name, o1)` has
the same outcome as the first call (the same info, or the same failure for an invalid
name) and leaves the registry, so `nextIndex`, `passesNamed` and `passesIndexed`, as the
first call left it. For a valid name the first call returns an info: the pass that
already existed under that name, or else a new pass whose defines are those built from
`o1`. -/
theorem allocate_twice_same_info (s : ShaderPass) (h : Reachable s) (name : String)
    (o1 o2 : Options) (hdoc : o1.documented) :
    (s.allocate name o1).2.allocate name o2 = s.allocate name o1 ∧
    (nameRegexTest name = true →
      ∃ info, (s.allocate name o1).1 = .ok info ∧
        (∀ old, s.getByName name = some old → info = old) ∧
        (s.getByName name = none → info.defines = definesBuiltFrom name s.nextIndex o1)) := by
  have hwf := reachable_wellFormed s h
  rcases ShaderPass.allocate_cases s name o1 hwf hdoc with
    ⟨info, hget, ha⟩ | ⟨hget, hv, ha⟩ | ⟨info, hget, hv, hnew, hname, hidx, ha⟩
  · refine ⟨?_, fun _ => ⟨info, by rw [ha], ?_, ?_⟩⟩
    · rw [ha]
      simp [ShaderPass.allocate, hget]
    · intro old hold
      have : some info = some old := by rw [← hget]; exact hold
      injection this
    · intro hnone
      rw [ShaderPass.getByName, hget] at hnone
      cases hnone
  · refine ⟨?_, fun hvalid => ?_⟩
    · rw [ha]
      simp [ShaderPass.allocate, hget, ShaderPassInfo.new_of_invalid name s.nextIndex o2 hv]
    · rw [hv] at hvalid
      cases hvalid
  · refine ⟨?_, fun _ => ⟨info, by rw [ha], ?_, ?_⟩⟩
    · rw [ha]
      have hget2 : JSMap.get (s.passesNamed ++ [(name, info)]) name = some info := by
        rw [JSMap.get_append_of_none _ _ _ hget]; simp
      simp [ShaderPass.allocate, hget2]
    · intro old hold
      rw [ShaderPass.getByName, hget] at hold
      cases hold
    · intro _
      simp [definesBuiltFrom, hnew]

theorem allocate_twice_same_info_witness :
    Reachable freshRegistry ∧ Options.documented { isShadow := some true } ∧
    ((freshRegistry.allocate "depth" { isShadow := some true }).2.allocate "depth"
        { isForward := some true } =
      freshRegistry.allocate "depth" { isShadow := some true } ∧
    (nameRegexTest "depth" = true →
      ∃ info, (freshRegistry.allocate "depth" { isShadow := some true }).1 = .ok info ∧
        (∀ old, freshRegistry.getByName "depth" = some old → info = old) ∧
        (freshRegistry.getByName "depth" = none →
          info.defines =
            definesBuiltFrom "depth" freshRegistry.nextIndex { isShadow := some true }))) :=
  ⟨reachable_fresh, by decide,
    allocate_twice_same_info freshRegistry reachable_fresh "depth" { isShadow := some true }
      { isForward := some true } (by decide)⟩

/-- C3: in every registry reachable from construction by `allocate` calls with documented
options, the names (keys of `passesNamed`) are pairwise distinct, the indices are
pairwise distinct, `passesIndexed` has length `nextIndex` and at every position
`i < nextIndex` holds an info (no hole) whose index is `i`, `passesNamed` has exactly
`nextIndex` entries, and every info is stored under the key equal to its own name and
is the info found at its own index. -/
theorem registry_invariant (s : ShaderPass) (h : Reachable s) :
    (s.passesNamed.map Prod.fst).Nodup ∧
    (s.passesNamed.map (fun p => p.2.index)).Nodup ∧
    s.passesIndexed.length = s.nextIndex ∧
    (∀ i, i < s.nextIndex → ∃ info, s.passesIndexed[i]? = some (some info) ∧ info.index = i) ∧
    s.passesNamed.length = s.nextIndex ∧
    (∀ k info, (k, info) ∈ s.passesNamed →
      info.name = k ∧ info.index < s.nextIndex ∧
        s.passesIndexed[info.index]? = some (some info)) := by
  have hwf := reachable_wellFormed s h
  refine ⟨hwf.nodup, ?_, WellFormed.indexed_length s hwf, WellFormed.indexed_at s hwf,
    hwf.next_eq.symm, ?_⟩
  · rw [hwf.index_eq]
    exact List.nodup_range _
  · intro k info hmem
    exact ⟨hwf.name_eq (k, info) hmem, WellFormed.indexed_of_mem s hwf k info hmem⟩

theorem registry_invariant_witness :
    Reachable (freshRegistry.allocate "forward2" {}).2 ∧
    (((freshRegistry.allocate "forward2" {}).2.passesNamed.map Prod.fst).Nodup ∧
    ((freshRegistry.allocate "forward2" {}).2.passesNamed.map (fun p => p.2.index)).Nodup ∧
    (freshRegistry.allocate "forward2" {}).2.passesIndexed.length =
      (freshRegistry.allocate "forward2" {}).2.nextIndex ∧
    (∀ i, i < (freshRegistry.allocate "forward2" {}).2.nextIndex →
      ∃ info, (freshRegistry.allocate "forward2" {}).2.passesIndexed[i]? = some (some info) ∧
        info.index = i) ∧
    (freshRegistry.allocate "forward2" {}).2.passesNamed.length =
      (freshRegistry.allocate "forward2" {}).2.nextIndex ∧
    (∀ k info, (k, info) ∈ (freshRegistry.allocate "forward2" {}).2.passesNamed →
      info.name = k ∧ info.index < (freshRegistry.allocate "forward2" {}).2.nextIndex ∧
        (freshRegistry.allocate "forward2" {}).2.passesIndexed[info.index]? =
          some (some info))) :=
  ⟨reachable_allocate freshRegistry reachable_fresh "forward2" {} (by decide),
    registry_invariant _
      (reachable_allocate freshRegistry reachable_fresh "forward2" {} (by decide))⟩

/-- C4 (the code at the failing input): the built-in `prepass` pass is allocated by the
constructor with neither flag set and has index 1, which is not the pick index, yet
its defines hold two keys, `undefined_PASS` before `PREPASS_PASS`. -/
theorem prepass_defines_undefined_pass :
    ∃ s, ShaderPass.new = .ok s ∧
      (s.getByName "prepass").map
          (fun i => (truthy i.isForward, truthy i.isShadow, decide (i.index = SHADER_PICK))) =
        some (false, false, false) ∧
      (s.getByName "prepass").map (fun i => i.defines) =
        some [("undefined_PASS", ""), ("PREPASS_PASS", "")] :=
  ⟨freshRegistry, by rfl, by decide, by decide⟩

theorem truthy_eq_true_iff (x : Option Bool) : truthy x = true ↔ x = some true := by
  cases x with
  | none => simp [truthy]
  | some b => cases b <;> simp [truthy]

theorem lookup_none_of_forall_ne (l : List (Char × Char)) (c : Char)
    (h : ∀ p ∈ l, p.1 ≠ c) : List.lookup c l = none := by
  induction l with
  | nil => rfl
  | cons p l ih =>
    obtain ⟨k, v⟩ := p
    have hk : (c == k) = false := by
      have := h (k, v) (List.mem_cons_self _ _)
      simpa using Ne.symm this
    simp only [List.lookup, hk]
    exact ih (fun q hq => h q (List.mem_cons_of_mem _ hq))

theorem alphabetTable_keys : ∀ p ∈ alphabetTable, 97 ≤ p.1.toNat ∧ p.1.toNat ≤ 122 := by
  decide

theorem toUpper_eq_upperCaseLetter (c : Char) : c.toUpper = upperCaseLetter c := by
  by_cases h : c.toNat ≥ 97 ∧ c.toNat ≤ 122
  · obtain ⟨ha, hb⟩ := h
    obtain ⟨k, hk, hc⟩ : ∃ k, k < 26 ∧ c.toNat = 97 + k := ⟨c.toNat - 97, by omega, by omega⟩
    have hc2 : c = Char.ofNat (97 + k) := by rw [← hc]; exact (Char.ofNat_toNat c).symm
    subst hc2
    interval_cases k <;> rfl
  · have h1 : c.toUpper = c := by
      unfold Char.toUpper
      simp only [h, if_false]
    have h2 : List.lookup c alphabetTable = none := by
      apply lookup_none_of_forall_ne
      intro p hp hpc
      have := alphabetTable_keys p hp
      rw [hpc] at this
      exact h this
    rw [h1, upperCaseLetter, h2]

/-- C5: a call of `allocate` with a new name that matches the identifier pattern and
documented options in which `isShadow` or `isForward` is `true` returns an info
whose define keys, in insertion order, are `K_PASS` and then `NAME_PASS`, a single key
when the two are the same text. `K` is `SHADOW` when `isShadow` is `true` and `FORWARD`
otherwise, so `isShadow` wins over `isForward`; `NAME` is the name with every lower-case
letter replaced by its upper-case letter of the alphabet. Every define value is the
empty string. -/
theorem allocate_defines_with_flag (s : ShaderPass) (name : String) (o : Options)
    (hdoc : o.documented) (hvalid : matchesIdentifierPattern name = true)
    (hnew : s.getByName name = none)
    (hflag : o.isShadow = some true ∨ o.isForward = some true) :
    ∃ info, (s.allocate name o).1 = .ok info ∧
      info.defines.map Prod.fst =
        (if flagKeyword o ++ "_PASS" = nameUpperCased name ++ "_PASS"
          then [flagKeyword o ++ "_PASS"]
          else [flagKeyword o ++ "_PASS", nameUpperCased name ++ "_PASS"]) ∧
      ∀ p ∈ info.defines, p.2 = "" := by
  obtain ⟨hn, hi⟩ := hdoc
  rw [← nameRegexTest_eq_pattern] at hvalid
  have hupper : toUpperCase name = nameUpperCased name := by
    unfold toUpperCase nameUpperCased
    congr 1
    exact List.map_congr_left (fun c _ => toUpper_eq_upperCaseLetter c)
  rw [← hupper]
  have hget : JSMap.get s.passesNamed name = none := hnew
  refine ⟨ShaderPassInfo.buildShaderDefines
    (ShaderPassInfo.assign
      { index := s.nextIndex, name := name, defines := [], isForward := none,
        isShadow := none, lightType := none, shadowType := none } o), ?_, ?_, ?_⟩
  · simp only [ShaderPass.allocate, hget, ShaderPassInfo.new_of_valid name s.nextIndex o hvalid]
  · rw [ShaderPassInfo.assign_base, hn, hi]
    by_cases hs0 : o.isShadow = some true
    · have hs : truthy o.isShadow = true := (truthy_eq_true_iff _).2 hs0
      have hk : flagKeyword o = "SHADOW" := by simp [flagKeyword, hs0]
      rw [hk]
      by_cases heq : "SHADOW_PASS" = toUpperCase name ++ "_PASS"
      · simp [ShaderPassInfo.buildShaderDefines, hs, keywordDefine, JSMap.set, heq]
      · simp [ShaderPassInfo.buildShaderDefines, hs, keywordDefine, JSMap.set, heq]
    · have hs : ¬ truthy o.isShadow = true := fun h => hs0 ((truthy_eq_true_iff _).1 h)
      have hf : truthy o.isForward = true :=
        (truthy_eq_true_iff _).2 (hflag.resolve_left hs0)
      have hk : flagKeyword o = "FORWARD" := by simp [flagKeyword, hs0]
      rw [hk]
      by_cases heq : "FORWARD_PASS" = toUpperCase name ++ "_PASS"
      · simp [ShaderPassInfo.buildShaderDefines, hs, hf, keywordDefine, JSMap.set, heq]
      · simp [ShaderPassInfo.buildShaderDefines, hs, hf, keywordDefine, JSMap.set, heq]
  · rw [ShaderPassInfo.assign_base, hn, hi]
    intro p hp
    by_cases hs0 : o.isShadow = some true
    · have hs : truthy o.isShadow = true := (truthy_eq_true_iff _).2 hs0
      by_cases heq : "SHADOW_PASS" = toUpperCase name ++ "_PASS"
      · simp [ShaderPassInfo.buildShaderDefines, hs, keywordDefine, JSMap.set, heq] at hp
        simp [hp]
      · simp [ShaderPassInfo.buildShaderDefines, hs, keywordDefine, JSMap.set, heq] at hp
        rcases hp with hp | hp <;> simp [hp]
    · have hs : ¬ truthy o.isShadow = true := fun h => hs0 ((truthy_eq_true_iff _).1 h)
      have hf : truthy o.isForward = true :=
        (truthy_eq_true_iff _).2 (hflag.resolve_left hs0)
      by_cases heq : "FORWARD_PASS" = toUpperCase name ++ "_PASS"
      · simp [ShaderPassInfo.buildShaderDefines, hs, hf, keywordDefine, JSMap.set, heq] at hp
        simp [hp]
      · simp [ShaderPassInfo.buildShaderDefines, hs, hf, keywordDefine, JSMap.set, heq] at hp
        rcases hp with hp | hp <;> simp [hp]

theorem allocate_defines_with_flag_witness :
    Options.documented { isForward := some true, isShadow := some true } ∧
    matchesIdentifierPattern "shadow_spot" = true ∧
    freshRegistry.getByName "shadow_spot" = none ∧
    ((some true : Option Bool) = some true ∨ (some true : Option Bool) = some true) ∧
    (freshRegistry.allocate "shadow_spot"
        { isForward := some true, isShadow := some true }).1.toOption.map
          (fun i => i.defines) = some [("SHADOW_PASS", ""), ("SHADOW_SPOT_PASS", "")] ∧
    (∃ info, (freshRegistry.allocate "shadow_spot"
        { isForward := some true, isShadow := some true }).1 = .ok info ∧
      info.defines.map Prod.fst = ["SHADOW_PASS", "SHADOW_SPOT_PASS"] ∧
      ∀ p ∈ info.defines, p.2 = "") ∧
    (∃ info, (ShaderPass.initial.allocate "forward"
        { isForward := some true }).1 = .ok info ∧
      info.defines.map Prod.fst = ["FORWARD_PASS"] ∧
      ∀ p ∈ info.defines, p.2 = "") :=
  ⟨by decide, by decide, by decide, by decide, by rfl,
    (allocate_defines_with_flag freshRegistry "shadow_spot"
      { isForward := some true, isShadow := some true } (by decide) (by decide) (by decide)
      (by decide)).imp (fun _ h => ⟨h.1, h.2.1.trans (by decide), h.2.2⟩),
    (allocate_defines_with_flag ShaderPass.initial "forward" { isForward := some true }
      (by decide) (by decide) (by decide) (by decide)).imp
        (fun _ h => ⟨h.1, h.2.1.trans (by decide), h.2.2⟩)⟩

/-- C6: in every reachable registry, `allocate(name, options)` fails exactly when `name` does
not match `[A-Za-z][A-Za-z0-9_]*`; the failure is `InvalidName`, and the registry after
the failed call is the registry before it. -/
theorem allocate_fails_iff_invalid_name (s : ShaderPass) (h : Reachable s) (name : String)
    (o : Options) :
    ((∃ e, (s.allocate name o).1 = .error e) ↔ matchesIdentifierPattern name = false) ∧
    (∀ e, (s.allocate name o).1 = .error e →
      e = Error.InvalidName ∧ (s.allocate name o).2 = s) := by
  have hwf := reachable_wellFormed s h
  rw [← nameRegexTest_eq_pattern]
  cases hget : JSMap.get s.passesNamed name with
  | some info =>
    have hv : nameRegexTest name = true :=
      hwf.valid (name, info) (JSMap.mem_of_get _ _ _ hget)
    simp [ShaderPass.allocate, hget, hv]
  | none =>
    by_cases hv : nameRegexTest name = true
    · simp [ShaderPass.allocate, hget, ShaderPassInfo.new_of_valid name s.nextIndex o hv, hv]
    · simp only [Bool.not_eq_true] at hv
      simp [ShaderPass.allocate, hget, ShaderPassInfo.new_of_invalid name s.nextIndex o hv, hv]

theorem allocate_fails_iff_invalid_name_witness :
    Reachable freshRegistry ∧
    freshRegistry.allocate "Bad Name!" {} = (.error Error.InvalidName, freshRegistry) ∧
    ((∃ e, (freshRegistry.allocate "Bad Name!" {}).1 = .error e) ↔
      matchesIdentifierPattern "Bad Name!" = false) ∧
    (∀ e, (freshRegistry.allocate "Bad Name!" {}).1 = .error e →
      e = Error.InvalidName ∧ (freshRegistry.allocate "Bad Name!" {}).2 = freshRegistry) :=
  ⟨reachable_fresh, by rfl,
    allocate_fails_iff_invalid_name freshRegistry reachable_fresh "Bad Name!" {}⟩

theorem JSArray.get_natCast {α : Type} (a : List (Option α)) (n : Nat) :
    JSArray.get a (n : Int) = (a[n]?).join := rfl

/-- C7: in every reachable registry, `allocate(name, options)` with documented options and a
valid name that is not yet allocated returns an info whose index is the previous
`nextIndex`, which is the number of passes allocated so far; `nextIndex` grows by exactly
1; both lookup structures only gain the new info at their end, so every index below the
previous `nextIndex` and every name allocated before still resolve to the same info. -/
theorem allocate_new_name (s : ShaderPass) (h : Reachable s) (name : String) (o : Options)
    (hdoc : o.documented) (hvalid : matchesIdentifierPattern name = true)
    (hnew : s.getByName name = none) :
    ∃ info, (s.allocate name o).1 = .ok info ∧
      info.index = s.nextIndex ∧ s.nextIndex = s.passesNamed.length ∧
      (s.allocate name o).2.nextIndex = s.nextIndex + 1 ∧
      (s.allocate name o).2.passesNamed = s.passesNamed ++ [(name, info)] ∧
      (s.allocate name o).2.passesIndexed = s.passesIndexed ++ [some info] ∧
      (∀ i : Nat, i < s.nextIndex →
        (s.allocate name o).2.getByIndex (i : Int) = s.getByIndex (i : Int)) ∧
      (∀ k old, s.getByName k = some old → (s.allocate name o).2.getByName k = some old) := by
  have hwf := reachable_wellFormed s h
  rw [← nameRegexTest_eq_pattern] at hvalid
  have hget : JSMap.get s.passesNamed name = none := hnew
  rcases ShaderPass.allocate_cases s name o hwf hdoc with
    ⟨info, hget2, _⟩ | ⟨_, hv, _⟩ | ⟨info, _, _, _, _, hidx, ha⟩
  · rw [hget] at hget2; cases hget2
  · rw [hvalid] at hv; cases hv
  · refine ⟨info, by rw [ha], hidx, hwf.next_eq, by rw [ha], by rw [ha], by rw [ha], ?_, ?_⟩
    · intro i hi
      rw [ha]
      have hlt : i < s.passesIndexed.length := by
        rw [WellFormed.indexed_length s hwf]; exact hi
      simp only [ShaderPass.getByIndex, JSArray.get_natCast, List.getElem?_append_left hlt]
    · intro k old hold
      exact ShaderPass.getByName_allocate_of_some s hwf name o hdoc k old hold

theorem allocate_new_name_witness :
    Reachable freshRegistry ∧ Options.documented {} ∧
    matchesIdentifierPattern "forward2" = true ∧
    freshRegistry.getByName "forward2" = none ∧ freshRegistry.nextIndex = 4 ∧
    ∃ info, (freshRegistry.allocate "forward2" {}).1 = .ok info ∧
      info.index = freshRegistry.nextIndex ∧
      freshRegistry.nextIndex = freshRegistry.passesNamed.length ∧
      (freshRegistry.allocate "forward2" {}).2.nextIndex = freshRegistry.nextIndex + 1 ∧
      (freshRegistry.allocate "forward2" {}).2.passesNamed =
        freshRegistry.passesNamed ++ [("forward2", info)] ∧
      (freshRegistry.allocate "forward2" {}).2.passesIndexed =
        freshRegistry.passesIndexed ++ [some info] ∧
      (∀ i : Nat, i < freshRegistry.nextIndex →
        (freshRegistry.allocate "forward2" {}).2.getByIndex (i : Int) =
          freshRegistry.getByIndex (i : Int)) ∧
      (∀ k old, freshRegistry.getByName k = some old →
        (freshRegistry.allocate "forward2" {}).2.getByName k = some old) :=
  ⟨reachable_fresh, by decide, by decide, by decide, by decide,
    allocate_new_name freshRegistry reachable_fresh "forward2" {} (by decide) (by decide)
      (by decide)⟩

/-- C8: take the registry built by the constructor followed by any `allocate` calls with
documented options. An info returned there by `allocate(name, options)` is what
`getByName(name)` and `getByIndex(info.index)` return right after the call and after any
further documented `allocate` calls. For a name that was passed neither to one of the
constructor calls nor to any of the `allocate` calls, `getByName` returns the not-found
value; `getByName` is a read of the name map, it has no failure case and no effect on
the registry. -/
theorem lookups_agree_with_allocate (s0 : ShaderPass) (calls : List (String × Options))
    (h0 : ShaderPass.new = .ok s0) (hdoc : ∀ c ∈ calls, Options.documented c.2) :
    (∀ name o info later, Options.documented o → (∀ c ∈ later, Options.documented c.2) →
      ((s0.allocateAll calls).allocate name o).1 = .ok info →
      ((((s0.allocateAll calls).allocate name o).2).allocateAll later).getByName name =
          some info ∧
        ((((s0.allocateAll calls).allocate name o).2).allocateAll later).getByIndex
          (info.index : Int) = .ok info) ∧
    (∀ name, name ∉ ["forward", "prepass", "shadow", "pick"] → name ∉ calls.map Prod.fst →
      (s0.allocateAll calls).getByName name = none) := by
  rw [ShaderPass.new_eq] at h0
  injection h0 with h0
  subst h0
  have hwf := WellFormed.allocateAll calls _ WellFormed.fresh hdoc
  constructor
  · intro name o info later ho hlater hret
    have hwf1 := WellFormed.allocate _ name o hwf ho
    have hwf2 := WellFormed.allocateAll later _ hwf1 hlater
    have hname : ((freshRegistry.allocateAll calls).allocate name o).2.getByName name =
        some info := by
      rcases ShaderPass.allocate_cases _ name o hwf ho with
        ⟨i, hget, ha⟩ | ⟨_, _, ha⟩ | ⟨i, hget, _, _, _, _, ha⟩
      · rw [ha] at hret ⊢
        injection hret with hret
        subst hret
        exact hget
      · rw [ha] at hret
        cases hret
      · rw [ha] at hret ⊢
        injection hret with hret
        subst hret
        show JSMap.get ((freshRegistry.allocateAll calls).passesNamed ++ [(name, i)]) name =
          some i
        rw [JSMap.get_append_of_none _ _ _ hget]
        simp
    have hlate := ShaderPass.getByName_allocateAll_of_some later _ hwf1 hlater name info hname
    exact ⟨hlate, WellFormed.getByIndex_of_getByName _ hwf2 name info hlate⟩
  · intro name hdef hcalls
    apply ShaderPass.getByName_allocateAll_of_not_mem calls _ WellFormed.fresh hdoc name hcalls
    simp only [List.mem_cons, List.mem_singleton, List.not_mem_nil, or_false, not_or] at hdef
    obtain ⟨h1, h2, h3, h4⟩ := hdef
    simp [ShaderPass.getByName, freshRegistry, ShaderPass.new, ShaderPass.add,
      ShaderPass.allocate, ShaderPass.initial, JSMap.get, JSMap.set, JSArray.set,
      ShaderPassInfo.new, Debug.assert, nameRegexTest, isLetterIgnoreCase, isWordChar,
      ShaderPassInfo.assign, ShaderPassInfo.buildShaderDefines, keywordDefine, toUpperCase,
      truthy, SHADER_PICK, SHADER_FORWARD, SHADER_PREPASS, SHADER_SHADOW, Ne.symm h1,
      Ne.symm h2, Ne.symm h3, Ne.symm h4]

theorem lookups_agree_with_allocate_witness :
    ShaderPass.new = .ok freshRegistry ∧
    (∀ c ∈ [("depth", ({ isShadow := some true } : Options))], Options.documented c.2) ∧
    ((∀ name o info later, Options.documented o → (∀ c ∈ later, Options.documented c.2) →
      ((freshRegistry.allocateAll [("depth", { isShadow := some true })]).allocate
          name o).1 = .ok info →
      ((((freshRegistry.allocateAll [("depth", { isShadow := some true })]).allocate
          name o).2).allocateAll later).getByName name = some info ∧
        ((((freshRegistry.allocateAll [("depth", { isShadow := some true })]).allocate
          name o).2).allocateAll later).getByIndex (info.index : Int) = .ok info) ∧
    (∀ name, name ∉ ["forward", "prepass", "shadow", "pick"] →
      name ∉ [("depth", ({ isShadow := some true } : Options))].map Prod.fst →
      (freshRegistry.allocateAll [("depth", { isShadow := some true })]).getByName name =
        none)) :=
  ⟨ShaderPass.new_eq, by decide,
    lookups_agree_with_allocate freshRegistry [("depth", { isShadow := some true })]
      ShaderPass.new_eq (by decide)⟩

/-- C9: in every reachable registry, `getByIndex(i)` fails with `OutOfRange` for every
integer `i` that is negative or at least `nextIndex`. -/
theorem getByIndex_out_of_range (s : ShaderPass) (h : Reachable s) (i : Int)
    (hi : (s.nextIndex : Int) ≤ i ∨ i < 0) : s.getByIndex i = .error Error.OutOfRange := by
  have hlen := WellFormed.indexed_length s (reachable_wellFormed s h)
  cases i with
  | ofNat n =>
    have hn : s.passesIndexed.length ≤ n := by
      rcases hi with hi | hi
      · rw [hlen]; exact Int.ofNat_le.mp hi
      · exact absurd hi (by simp)
    simp [ShaderPass.getByIndex, JSArray.get, List.getElem?_eq_none hn]
  | negSucc n => rfl

theorem getByIndex_out_of_range_witness :
    Reachable freshRegistry ∧ ((freshRegistry.nextIndex : Int) ≤ 4 ∨ (4 : Int) < 0) ∧
    freshRegistry.getByIndex 4 = .error Error.OutOfRange ∧
    ((freshRegistry.nextIndex : Int) ≤ -1 ∨ (-1 : Int) < 0) ∧
    freshRegistry.getByIndex (-1) = .error Error.OutOfRange :=
  ⟨reachable_fresh, by decide,
    getByIndex_out_of_range freshRegistry reachable_fresh 4 (by decide), by decide,
    getByIndex_out_of_range freshRegistry reachable_fresh (-1) (by decide)⟩

/-! ## Lemmas on the loops of `createDescriptor` -/

theorem getElem?_append_cons_length {α : Type} (pre rest : List α) (x : α) :
    (pre ++ x :: rest)[pre.length]? = some x := by
  rw [List.getElem?_append_right (Nat.le_refl _)]
  simp

theorem forEach_uniformBufferStep (ubs : List UniformBuffer)
    (pre rest : List BindUniformBufferFormat) (st : DescriptorState)
    (hlen : ubs.length = rest.length) :
    ((forEach (uniformBufferStep (pre ++ rest)) ubs pre.length st).1 = .ok () →
      (forEach (uniformBufferStep (pre ++ rest)) ubs pre.length st).2.entries.map
          (fun e => e.binding) =
        st.entries.map (fun e => e.binding) ++ rest.map (fun u => u.slot)) ∧
    (∀ e, (forEach (uniformBufferStep (pre ++ rest)) ubs pre.length st).1 = .error e →
      e = Error.NullResource) ∧
    ((∀ ub ∈ ubs, (if ub.persistent then ub.implBuffer else ub.allocationBuffer).isSome = true) →
      (forEach (uniformBufferStep (pre ++ rest)) ubs pre.length st).1 = .ok ()) := by
  induction ubs generalizing pre rest st with
  | nil =>
    cases rest with
    | nil => simp [forEach]
    | cons f rest => simp at hlen
  | cons ub ubs ih =>
    cases rest with
    | nil => simp at hlen
    | cons f rest =>
      simp only [List.length_cons, Nat.add_right_cancel_iff] at hlen
      have hstep := ih (pre ++ [f]) rest
      simp only [List.append_assoc, List.singleton_append, List.length_append,
        List.length_singleton] at hstep
      by_cases hb : (if ub.persistent then ub.implBuffer else ub.allocationBuffer).isSome = true
      · have h := hstep ((Debug.call (fun d => d ++ toString f.slot ++ ": UB\n") st).push
          { binding := f.slot
            resource := .bufferBinding
              (if ub.persistent then ub.implBuffer else ub.allocationBuffer) (some 0)
              (some ub.byteSize) }) hlen
        simp only [forEach, uniformBufferStep, getElem?_append_cons_length, Debug.assert, hb,
          if_true]
        refine ⟨fun hok => ?_, h.2.1, fun hall => h.2.2 fun u hu => hall u (List.mem_cons_of_mem _ hu)⟩
        rw [h.1 hok]
        simp [DescriptorState.push, Debug.call]
      · simp [forEach, uniformBufferStep, getElem?_append_cons_length, Debug.assert, hb]

theorem forEach_textureStep (device : Device) (format : BindGroupFormat) (texs : List Texture)
    (pre rest : List BindTextureFormat) (st : DescriptorState)
    (hf : format.textureFormats = pre ++ rest) (hlen : texs.length = rest.length) :
    ((forEach (textureStep device format) texs pre.length st).1 = .ok () →
      (forEach (textureStep device format) texs pre.length st).2.entries.map
          (fun e => e.binding) =
        st.entries.map (fun e => e.binding) ++ (rest.map textureBindings).flatten) ∧
    (∀ e, (forEach (textureStep device format) texs pre.length st).1 = .error e →
      e = Error.NullResource) ∧
    ((∀ p ∈ List.zip rest texs, (p.2.getView device).isSome = true ∧
        (p.1.hasSampler = true → (p.2.getSampler device p.1.sampleType).isSome = true)) →
      (forEach (textureStep device format) texs pre.length st).1 = .ok ()) := by
  induction texs generalizing pre rest st with
  | nil =>
    cases rest with
    | nil => simp [forEach]
    | cons f rest => simp at hlen
  | cons tex texs ih =>
    cases rest with
    | nil => simp at hlen
    | cons f rest =>
      simp only [List.length_cons, Nat.add_right_cancel_iff] at hlen
      have hstep := fun st2 => ih (pre ++ [f]) rest st2 (by rw [hf]; simp) hlen
      simp only [List.length_append, List.length_singleton] at hstep
      have hidx : format.textureFormats[pre.length]? = some f := by
        rw [hf]; exact getElem?_append_cons_length pre rest f
      by_cases hv : (tex.getView device).isSome = true
      · by_cases hs : f.hasSampler = true
        · cases hsmp : tex.getSampler device f.sampleType with
          | none =>
            simp only [forEach, textureStep, hidx, Debug.assert, hv, hs, hsmp, if_true,
              Option.isSome_none]
            refine ⟨by simp, by simp, fun hall => ?_⟩
            have := (hall (f, tex) (by simp)).2 hs
            rw [hsmp] at this
            simp at this
          | some smp =>
            simp only [forEach, textureStep, hidx, Debug.assert, hv, hs, hsmp, if_true,
              Option.isSome_some]
            have h := hstep ((Debug.call
              (fun d => d ++ toString (f.slot + 1) ++ ": " ++ smp.label ++ "\n")
              ((Debug.call (fun d => d ++ toString f.slot ++ ": " ++ f.name ++ "\n") st).push
                { binding := f.slot, resource := .textureView (tex.getView device) })).push
              { binding := f.slot + 1, resource := .sampler (some smp) })
            refine ⟨fun hok => ?_, h.2.1, fun hall => h.2.2 fun p hp => hall p ?_⟩
            · rw [h.1 hok]
              simp [DescriptorState.push, Debug.call, textureBindings, hs]
            · simp only [List.zip_cons_cons]
              exact List.mem_cons_of_mem _ hp
        · have hs2 : f.hasSampler = false := by simpa using hs
          simp only [forEach, textureStep, hidx, Debug.assert, hv, hs2, if_true,
            Bool.false_eq_true, if_false]
          have h := hstep
            ((Debug.call (fun d => d ++ toString f.slot ++ ": " ++ f.name ++ "\n") st).push
              { binding := f.slot, resource := .textureView (tex.getView device) })
          refine ⟨fun hok => ?_, h.2.1, fun hall => h.2.2 fun p hp => hall p ?_⟩
          · rw [h.1 hok]
            simp [DescriptorState.push, Debug.call, textureBindings, hs]
          · simp only [List.zip_cons_cons]
            exact List.mem_cons_of_mem _ hp
      · simp only [forEach, textureStep, hidx, Debug.assert, hv]
        refine ⟨by simp, by simp, fun hall => ?_⟩
        exact absurd (hall (f, tex) (by simp)).1 hv

theorem forEach_storageTextureStep (device : Device) (texs : List Texture)
    (pre rest : List BindStorageTextureFormat) (st : DescriptorState)
    (hlen : texs.length = rest.length) :
    ((forEach (storageTextureStep device (pre ++ rest)) texs pre.length st).1 = .ok () →
      (forEach (storageTextureStep device (pre ++ rest)) texs pre.length st).2.entries.map
          (fun e => e.binding) =
        st.entries.map (fun e => e.binding) ++ rest.map (fun t => t.slot)) ∧
    (∀ e, (forEach (storageTextureStep device (pre ++ rest)) texs pre.length st).1 = .error e →
      e = Error.NullResource) ∧
    ((∀ t ∈ texs, (t.getView device).isSome = true) →
      (forEach (storageTextureStep device (pre ++ rest)) texs pre.length st).1 = .ok ()) := by
  induction texs generalizing pre rest st with
  | nil =>
    cases rest with
    | nil => simp [forEach]
    | cons f rest => simp at hlen
  | cons tex texs ih =>
    cases rest with
    | nil => simp at hlen
    | cons f rest =>
      simp only [List.length_cons, Nat.add_right_cancel_iff] at hlen
      have hstep := ih (pre ++ [f]) rest
      simp only [List.append_assoc, List.singleton_append, List.length_append,
        List.length_singleton] at hstep
      by_cases hv : (tex.getView device).isSome = true
      · have h := hstep
          ((Debug.call (fun d => d ++ toString f.slot ++ ": " ++ f.name ++ "\n") st).push
            { binding := f.slot, resource := .textureView (tex.getView device) }) hlen
        simp only [forEach, storageTextureStep, getElem?_append_cons_length, Debug.assert, hv,
          if_true]
        refine ⟨fun hok => ?_, h.2.1, fun hall => h.2.2 fun u hu => hall u (List.mem_cons_of_mem _ hu)⟩
        rw [h.1 hok]
        simp [DescriptorState.push, Debug.call]
      · simp [forEach, storageTextureStep, getElem?_append_cons_length, Debug.assert, hv]

theorem forEach_storageBufferStep (bufs : List StorageBuffer)
    (pre rest : List BindStorageBufferFormat) (st : DescriptorState)
    (hlen : bufs.length = rest.length) :
    ((forEach (storageBufferStep (pre ++ rest)) bufs pre.length st).1 = .ok () →
      (forEach (storageBufferStep (pre ++ rest)) bufs pre.length st).2.entries.map
          (fun e => e.binding) =
        st.entries.map (fun e => e.binding) ++ rest.map (fun b => b.slot)) ∧
    (∀ e, (forEach (storageBufferStep (pre ++ rest)) bufs pre.length st).1 = .error e →
      e = Error.NullResource) ∧
    ((∀ b ∈ bufs, b.implBuffer.isSome = true) →
      (forEach (storageBufferStep (pre ++ rest)) bufs pre.length st).1 = .ok ()) := by
  induction bufs generalizing pre rest st with
  | nil =>
    cases rest with
    | nil => simp [forEach]
    | cons f rest => simp at hlen
  | cons buf bufs ih =>
    cases rest with
    | nil => simp at hlen
    | cons f rest =>
      simp only [List.length_cons, Nat.add_right_cancel_iff] at hlen
      have hstep := ih (pre ++ [f]) rest
      simp only [List.append_assoc, List.singleton_append, List.length_append,
        List.length_singleton] at hstep
      by_cases hb : buf.implBuffer.isSome = true
      · have h := hstep ((Debug.call (fun d => d ++ toString f.slot ++ ": SB\n") st).push
          { binding := f.slot, resource := .bufferBinding buf.implBuffer none none }) hlen
        simp only [forEach, storageBufferStep, getElem?_append_cons_length, Debug.assert, hb,
          if_true]
        refine ⟨fun hok => ?_, h.2.1, fun hall => h.2.2 fun u hu => hall u (List.mem_cons_of_mem _ hu)⟩
        rw [h.1 hok]
        simp [DescriptorState.push, Debug.call]
      · simp [forEach, storageBufferStep, getElem?_append_cons_length, Debug.assert, hb]

theorem length_flatten_textureBindings (fmts : List BindTextureFormat) :
    ((fmts.map textureBindings).flatten).length =
      fmts.length + (fmts.filter (fun t => t.hasSampler)).length := by
  induction fmts with
  | nil => rfl
  | cons f fmts ih =>
    by_cases hs : f.hasSampler = true
    · simp [textureBindings, hs, ih]; omega
    · simp [textureBindings, hs, ih]; omega

theorem length_expectedBindings (f : BindGroupFormat) :
    (expectedBindings f).length =
      f.uniformBufferFormats.length + f.textureFormats.length +
        (f.textureFormats.filter (fun t => t.hasSampler)).length +
        f.storageTextureFormats.length + f.storageBufferFormats.length := by
  simp only [expectedBindings, List.length_append, List.length_map,
    length_flatten_textureBindings]
  omega

/-! ## Theorems on `createDescriptor` -/

/-- C10 (as stated, refuted): the lists of `nullViewBindGroup` have the lengths of the lists
of its format, yet `createDescriptor` does not succeed on it; the call fails with
`NullResource` at the assertion on the texture view. -/
theorem createDescriptor_matching_lengths_counterexample :
    nullViewBindGroup.matchesFormat ∧
    (WebgpuBindGroup.createDescriptor { bindGroup := none, debugFormat := none } 0
      nullViewBindGroup).1 = .error Error.NullResource :=
  ⟨⟨rfl, rfl, rfl, rfl⟩, by rfl⟩

/-- C10 (amended): for every bind group whose four resource lists have the lengths of the
corresponding lists of its format, `createDescriptor` makes no out-of-range lookup, its
only possible failure being `NullResource`; it succeeds whenever every resource
resolves; and the entry bindings of the descriptor it returns are the uniform buffer
slots in order, then for each texture its slot followed by `slot + 1` exactly when its
format slot has a sampler, then the storage texture slots, then the storage buffer
slots. The number of entries is the number of uniform buffers, textures, textures with a
sampler, storage textures and storage buffers together, and the layout is the native
layout of the format. -/
theorem createDescriptor_bindings (self : WebgpuBindGroup) (device : Device) (bg : BindGroup)
    (hm : bg.matchesFormat) :
    (∀ e, (self.createDescriptor device bg).1 = .error e → e = Error.NullResource) ∧
    (bg.populated device → ∃ desc, (self.createDescriptor device bg).1 = .ok desc) ∧
    (∀ desc, (self.createDescriptor device bg).1 = .ok desc →
      desc.entries.map (fun e => e.binding) = expectedBindings bg.format ∧
      desc.entries.length =
        bg.uniformBuffers.length + bg.textures.length +
          (bg.format.textureFormats.filter (fun t => t.hasSampler)).length +
          bg.storageTextures.length + bg.storageBuffers.length ∧
      desc.layout = bg.format.bindGroupLayout) := by
  obtain ⟨h1, h2, h3, h4⟩ := hm
  have hu := forEach_uniformBufferStep bg.uniformBuffers [] bg.format.uniformBufferFormats
    { entries := [], debugFormat := "" } h1
  simp only [List.nil_append, List.length_nil, List.map_nil] at hu
  simp only [WebgpuBindGroup.createDescriptor]
  generalize forEach (uniformBufferStep bg.format.uniformBufferFormats) bg.uniformBuffers 0
    { entries := [], debugFormat := "" } = r1 at hu ⊢
  obtain ⟨res1, st1⟩ := r1
  cases res1 with
  | error e1 =>
    dsimp only
    refine ⟨fun e he => ?_, fun hp => ?_, fun desc hd => ?_⟩
    · injection he with he
      exact he ▸ hu.2.1 e1 rfl
    · exact absurd (hu.2.2 hp.1) (by simp)
    · cases hd
  | ok u1 =>
    dsimp only
    have ht := forEach_textureStep device bg.format bg.textures [] bg.format.textureFormats st1
      rfl h2
    simp only [List.length_nil] at ht
    generalize forEach (textureStep device bg.format) bg.textures 0 st1 = r2 at ht ⊢
    obtain ⟨res2, st2⟩ := r2
    cases res2 with
    | error e2 =>
      dsimp only
      refine ⟨fun e he => ?_, fun hp => ?_, fun desc hd => ?_⟩
      · injection he with he
        exact he ▸ ht.2.1 e2 rfl
      · exact absurd (ht.2.2 hp.2.1) (by simp)
      · cases hd
    | ok u2 =>
      dsimp only
      have hs := forEach_storageTextureStep device bg.storageTextures []
        bg.format.storageTextureFormats st2 h3
      simp only [List.nil_append, List.length_nil] at hs
      generalize forEach (storageTextureStep device bg.format.storageTextureFormats)
        bg.storageTextures 0 st2 = r3 at hs ⊢
      obtain ⟨res3, st3⟩ := r3
      cases res3 with
      | error e3 =>
        dsimp only
        refine ⟨fun e he => ?_, fun hp => ?_, fun desc hd => ?_⟩
        · injection he with he
          exact he ▸ hs.2.1 e3 rfl
        · exact absurd (hs.2.2 hp.2.2.1) (by simp)
        · cases hd
      | ok u3 =>
        dsimp only
        have hb := forEach_storageBufferStep bg.storageBuffers []
          bg.format.storageBufferFormats st3 h4
        simp only [List.nil_append, List.length_nil] at hb
        generalize forEach (storageBufferStep bg.format.storageBufferFormats)
          bg.storageBuffers 0 st3 = r4 at hb ⊢
        obtain ⟨res4, st4⟩ := r4
        cases res4 with
        | error e4 =>
          dsimp only
          refine ⟨fun e he => ?_, fun hp => ?_, fun desc hd => ?_⟩
          · injection he with he
            exact he ▸ hb.2.1 e4 rfl
          · exact absurd (hb.2.2 hp.2.2.2) (by simp)
          · cases hd
        | ok u4 =>
          dsimp only
          have hbind : st4.entries.map (fun e => e.binding) = expectedBindings bg.format := by
            have e1 := hu.1 rfl
            have e2 := ht.1 rfl
            have e3 := hs.1 rfl
            have e4 := hb.1 rfl
            simp only at e1 e2 e3 e4
            rw [e4, e3, e2, e1]
            simp [expectedBindings]
          refine ⟨fun e he => ?_, fun _ => ⟨_, rfl⟩, fun desc hd => ?_⟩
          · cases he
          injection hd with hd
          subst hd
          refine ⟨hbind, ?_, rfl⟩
          have hl := congrArg List.length hbind
          rw [List.length_map, length_expectedBindings] at hl
          rw [hl, h1, h2, h3, h4]

theorem createDescriptor_bindings_witness :
    exampleBindGroup.matchesFormat ∧ exampleBindGroup.populated 0 ∧
    (∀ desc, (WebgpuBindGroup.createDescriptor { bindGroup := none, debugFormat := none } 0
        exampleBindGroup).1 = .ok desc → desc.entries.map (fun e => e.binding) = [0, 1, 2, 3]) ∧
    ((∀ e, (WebgpuBindGroup.createDescriptor { bindGroup := none, debugFormat := none } 0
        exampleBindGroup).1 = .error e → e = Error.NullResource) ∧
    (exampleBindGroup.populated 0 →
      ∃ desc, (WebgpuBindGroup.createDescriptor { bindGroup := none, debugFormat := none } 0
        exampleBindGroup).1 = .ok desc) ∧
    (∀ desc, (WebgpuBindGroup.createDescriptor { bindGroup := none, debugFormat := none } 0
        exampleBindGroup).1 = .ok desc →
      desc.entries.map (fun e => e.binding) = expectedBindings exampleBindGroup.format ∧
      desc.entries.length =
        exampleBindGroup.uniformBuffers.length + exampleBindGroup.textures.length +
          (exampleBindGroup.format.textureFormats.filter (fun t => t.hasSampler)).length +
          exampleBindGroup.storageTextures.length + exampleBindGroup.storageBuffers.length ∧
      desc.layout = exampleBindGroup.format.bindGroupLayout)) :=
  ⟨⟨rfl, rfl, rfl, rfl⟩,
    by simp [BindGroup.populated, exampleBindGroup],
    fun desc hd =>
      ((createDescriptor_bindings { bindGroup := none, debugFormat := none } 0 exampleBindGroup
        ⟨rfl, rfl, rfl, rfl⟩).2.2 desc hd).1,
    createDescriptor_bindings { bindGroup := none, debugFormat := none } 0 exampleBindGroup
      ⟨rfl, rfl, rfl, rfl⟩⟩

/-! ## The loops of `createDescriptor`, entry by entry -/

theorem append_reportLine (d : String) (n : Nat) (t : String) :
    d ++ toString n ++ ": " ++ t ++ "\n" = d ++ reportLine n t := by
  simp only [reportLine, String.append_assoc]

theorem append_reportLine_UB (d : String) (n : Nat) :
    d ++ toString n ++ ": UB\n" = d ++ reportLine n "UB" := by
  simp only [reportLine, String.append_assoc]
  rfl

theorem append_reportLine_SB (d : String) (n : Nat) :
    d ++ toString n ++ ": SB\n" = d ++ reportLine n "SB" := by
  simp only [reportLine, String.append_assoc]
  rfl

theorem forEach_uniformBufferStep_ok (ubs : List UniformBuffer)
    (pre rest : List BindUniformBufferFormat) (st : DescriptorState)
    (hlen : ubs.length ≤ rest.length)
    (hres : ∀ ub ∈ ubs,
      (if ub.persistent then ub.implBuffer else ub.allocationBuffer).isSome = true) :
    forEach (uniformBufferStep (pre ++ rest)) ubs pre.length st =
      (.ok (),
        { entries := st.entries ++ (List.zipWith uniformBufferItem rest ubs).map Prod.fst
          debugFormat := reportOf (List.zipWith uniformBufferItem rest ubs) st.debugFormat }) := by
  induction ubs generalizing pre rest st with
  | nil => simp [forEach, reportOf]
  | cons ub ubs ih =>
    cases rest with
    | nil => simp at hlen
    | cons f rest =>
      have hstep := ih (pre ++ [f]) rest
      simp only [List.append_assoc, List.singleton_append, List.length_append,
        List.length_singleton] at hstep
      have hb := hres ub (List.mem_cons_self _ _)
      simp only [forEach, uniformBufferStep, getElem?_append_cons_length, Debug.assert, hb,
        if_true]
      rw [hstep _ (by simpa using hlen) (fun u hu => hres u (List.mem_cons_of_mem _ hu))]
      simp only [DescriptorState.push, Debug.call, List.zipWith_cons_cons, List.map_cons,
        reportOf, List.foldl_cons, uniformBufferItem, List.append_assoc, List.singleton_append,
        append_reportLine_UB]

theorem forEach_uniformBufferStep_inv (ubs : List UniformBuffer)
    (pre rest : List BindUniformBufferFormat) (st : DescriptorState)
    (h : (forEach (uniformBufferStep (pre ++ rest)) ubs pre.length st).1 = .ok ()) :
    ubs.length ≤ rest.length ∧
      ∀ ub ∈ ubs, (if ub.persistent then ub.implBuffer else ub.allocationBuffer).isSome = true := by
  induction ubs generalizing pre rest st with
  | nil => simp
  | cons ub ubs ih =>
    cases rest with
    | nil => simp [forEach, uniformBufferStep] at h
    | cons f rest =>
      have hstep := ih (pre ++ [f]) rest
      simp only [List.append_assoc, List.singleton_append, List.length_append,
        List.length_singleton] at hstep
      by_cases hb : (if ub.persistent then ub.implBuffer else ub.allocationBuffer).isSome = true
      · simp only [forEach, uniformBufferStep, getElem?_append_cons_length, Debug.assert, hb,
          if_true] at h
        obtain ⟨h1, h2⟩ := hstep _ h
        refine ⟨by simpa using h1, fun u hu => ?_⟩
        rcases List.mem_cons.1 hu with hu | hu
        · subst hu; exact hb
        · exact h2 u hu
      · simp [forEach, uniformBufferStep, getElem?_append_cons_length, Debug.assert, hb] at h

theorem forEach_storageTextureStep_ok (device : Device) (texs : List Texture)
    (pre rest : List BindStorageTextureFormat) (st : DescriptorState)
    (hlen : texs.length ≤ rest.length)
    (hres : ∀ t ∈ texs, (t.getView device).isSome = true) :
    forEach (storageTextureStep device (pre ++ rest)) texs pre.length st =
      (.ok (),
        { entries := st.entries ++
            (List.zipWith (storageTextureItem device) rest texs).map Prod.fst
          debugFormat :=
            reportOf (List.zipWith (storageTextureItem device) rest texs) st.debugFormat }) := by
  induction texs generalizing pre rest st with
  | nil => simp [forEach, reportOf]
  | cons tex texs ih =>
    cases rest with
    | nil => simp at hlen
    | cons f rest =>
      have hstep := ih (pre ++ [f]) rest
      simp only [List.append_assoc, List.singleton_append, List.length_append,
        List.length_singleton] at hstep
      have hv := hres tex (List.mem_cons_self _ _)
      simp only [forEach, storageTextureStep, getElem?_append_cons_length, Debug.assert, hv,
        if_true]
      rw [hstep _ (by simpa using hlen) (fun u hu => hres u (List.mem_cons_of_mem _ hu))]
      simp only [DescriptorState.push, Debug.call, List.zipWith_cons_cons, List.map_cons,
        reportOf, List.foldl_cons, storageTextureItem, List.append_assoc,
        List.singleton_append, append_reportLine]

theorem forEach_storageTextureStep_inv (device : Device) (texs : List Texture)
    (pre rest : List BindStorageTextureFormat) (st : DescriptorState)
    (h : (forEach (storageTextureStep device (pre ++ rest)) texs pre.length st).1 = .ok ()) :
    texs.length ≤ rest.length ∧ ∀ t ∈ texs, (t.getView device).isSome = true := by
  induction texs generalizing pre rest st with
  | nil => simp
  | cons tex texs ih =>
    cases rest with
    | nil => simp [forEach, storageTextureStep] at h
    | cons f rest =>
      have hstep := ih (pre ++ [f]) rest
      simp only [List.append_assoc, List.singleton_append, List.length_append,
        List.length_singleton] at hstep
      by_cases hv : (tex.getView device).isSome = true
      · simp only [forEach, storageTextureStep, getElem?_append_cons_length, Debug.assert, hv,
          if_true] at h
        obtain ⟨h1, h2⟩ := hstep _ h
        refine ⟨by simpa using h1, fun u hu => ?_⟩
        rcases List.mem_cons.1 hu with hu | hu
        · subst hu; exact hv
        · exact h2 u hu
      · simp [forEach, storageTextureStep, getElem?_append_cons_length, Debug.assert, hv] at h

theorem forEach_storageBufferStep_ok (bufs : List StorageBuffer)
    (pre rest : List BindStorageBufferFormat) (st : DescriptorState)
    (hlen : bufs.length ≤ rest.length) (hres : ∀ b ∈ bufs, b.implBuffer.isSome = true) :
    forEach (storageBufferStep (pre ++ rest)) bufs pre.length st =
      (.ok (),
        { entries := st.entries ++ (List.zipWith storageBufferItem rest bufs).map Prod.fst
          debugFormat := reportOf (List.zipWith storageBufferItem rest bufs) st.debugFormat }) := by
  induction bufs generalizing pre rest st with
  | nil => simp [forEach, reportOf]
  | cons buf bufs ih =>
    cases rest with
    | nil => simp at hlen
    | cons f rest =>
      have hstep := ih (pre ++ [f]) rest
      simp only [List.append_assoc, List.singleton_append, List.length_append,
        List.length_singleton] at hstep
      have hb := hres buf (List.mem_cons_self _ _)
      simp only [forEach, storageBufferStep, getElem?_append_cons_length, Debug.assert, hb,
        if_true]
      rw [hstep _ (by simpa using hlen) (fun u hu => hres u (List.mem_cons_of_mem _ hu))]
      simp only [DescriptorState.push, Debug.call, List.zipWith_cons_cons, List.map_cons,
        reportOf, List.foldl_cons, storageBufferItem, List.append_assoc, List.singleton_append,
        append_reportLine_SB]

theorem forEach_storageBufferStep_inv (bufs : List StorageBuffer)
    (pre rest : List BindStorageBufferFormat) (st : DescriptorState)
    (h : (forEach (storageBufferStep (pre ++ rest)) bufs pre.length st).1 = .ok ()) :
    bufs.length ≤ rest.length ∧ ∀ b ∈ bufs, b.implBuffer.isSome = true := by
  induction bufs generalizing pre rest st with
  | nil => simp
  | cons buf bufs ih =>
    cases rest with
    | nil => simp [forEach, storageBufferStep] at h
    | cons f rest =>
      have hstep := ih (pre ++ [f]) rest
      simp only [List.append_assoc, List.singleton_append, List.length_append,
        List.length_singleton] at hstep
      by_cases hb : buf.implBuffer.isSome = true
      · simp only [forEach, storageBufferStep, getElem?_append_cons_length, Debug.assert, hb,
          if_true] at h
        obtain ⟨h1, h2⟩ := hstep _ h
        refine ⟨by simpa using h1, fun u hu => ?_⟩
        rcases List.mem_cons.1 hu with hu | hu
        · subst hu; exact hb
        · exact h2 u hu
      · simp [forEach, storageBufferStep, getElem?_append_cons_length, Debug.assert, hb] at h

theorem reportOf_append (a b : List (GPUBindGroupEntry × String)) (d : String) :
    reportOf (a ++ b) d = reportOf b (reportOf a d) := by
  simp [reportOf, List.foldl_append]

theorem forEach_textureStep_ok (device : Device) (format : BindGroupFormat)
    (texs : List Texture) (pre rest : List BindTextureFormat) (st : DescriptorState)
    (hf : format.textureFormats = pre ++ rest) (hlen : texs.length ≤ rest.length)
    (hres : ∀ p ∈ List.zip rest texs, (p.2.getView device).isSome = true ∧
      (p.1.hasSampler = true → (p.2.getSampler device p.1.sampleType).isSome = true)) :
    forEach (textureStep device format) texs pre.length st =
      (.ok (),
        { entries := st.entries ++
            ((List.zipWith (textureItems device) rest texs).flatten).map Prod.fst
          debugFormat :=
            reportOf (List.zipWith (textureItems device) rest texs).flatten st.debugFormat }) := by
  induction texs generalizing pre rest st with
  | nil => simp [forEach, reportOf]
  | cons tex texs ih =>
    cases rest with
    | nil => simp at hlen
    | cons f rest =>
      have hstep := fun st2 => ih (pre ++ [f]) rest st2 (by rw [hf]; simp)
        (by simpa using hlen) (fun p hp => hres p (by
          simp only [List.zip_cons_cons]; exact List.mem_cons_of_mem _ hp))
      simp only [List.length_append, List.length_singleton] at hstep
      have hidx : format.textureFormats[pre.length]? = some f := by
        rw [hf]; exact getElem?_append_cons_length pre rest f
      obtain ⟨hv, hsm⟩ := hres (f, tex) (by simp)
      simp only at hv hsm
      by_cases hs : f.hasSampler = true
      · have hsome := hsm hs
        obtain ⟨smp, hsmp⟩ := Option.isSome_iff_exists.1 hsome
        simp only [forEach, textureStep, hidx, Debug.assert, hv, hs, hsmp, if_true,
          Option.isSome_some]
        rw [hstep]
        simp only [DescriptorState.push, Debug.call, List.zipWith_cons_cons,
          List.flatten_cons, List.map_append, List.map_cons, List.map_nil, reportOf_append,
          textureItems, hs, hsmp, if_true, List.append_assoc, List.singleton_append,
          List.cons_append, List.nil_append, append_reportLine]
        simp only [reportOf, List.foldl_cons, List.foldl_nil]
      · have hs2 : f.hasSampler = false := by simpa using hs
        simp only [forEach, textureStep, hidx, Debug.assert, hv, hs2, if_true,
          Bool.false_eq_true, if_false]
        rw [hstep]
        simp only [DescriptorState.push, Debug.call, List.zipWith_cons_cons,
          List.flatten_cons, List.map_append, List.map_cons, List.map_nil, reportOf_append,
          textureItems, hs2, Bool.false_eq_true, if_false, List.append_assoc,
          List.singleton_append, List.cons_append, List.nil_append, append_reportLine]
        simp only [reportOf, List.foldl_cons, List.foldl_nil]

theorem forEach_textureStep_inv (device : Device) (format : BindGroupFormat)
    (texs : List Texture) (pre rest : List BindTextureFormat) (st : DescriptorState)
    (hf : format.textureFormats = pre ++ rest)
    (h : (forEach (textureStep device format) texs pre.length st).1 = .ok ()) :
    texs.length ≤ rest.length ∧ (∀ t ∈ texs, (t.getView device).isSome = true) ∧
      ∀ p ∈ List.zip rest texs, (p.2.getView device).isSome = true ∧
        (p.1.hasSampler = true → (p.2.getSampler device p.1.sampleType).isSome = true) := by
  induction texs generalizing pre rest st with
  | nil => simp
  | cons tex texs ih =>
    cases rest with
    | nil =>
      have hidx : format.textureFormats[pre.length]? = none := by rw [hf]; simp
      simp [forEach, textureStep, hidx] at h
    | cons f rest =>
      have hstep := fun st2 => ih (pre ++ [f]) rest st2 (by rw [hf]; simp)
      simp only [List.length_append, List.length_singleton] at hstep
      have hidx : format.textureFormats[pre.length]? = some f := by
        rw [hf]; exact getElem?_append_cons_length pre rest f
      by_cases hv : (tex.getView device).isSome = true
      · by_cases hs : f.hasSampler = true
        · cases hsmp : tex.getSampler device f.sampleType with
          | none =>
            simp [forEach, textureStep, hidx, Debug.assert, hv, hs, hsmp] at h
          | some smp =>
            simp only [forEach, textureStep, hidx, Debug.assert, hv, hs, hsmp, if_true,
              Option.isSome_some] at h
            obtain ⟨h1, h2, h3⟩ := hstep _ h
            refine ⟨by simpa using h1, fun u hu => ?_, fun p hp => ?_⟩
            · rcases List.mem_cons.1 hu with hu | hu
              · subst hu; exact hv
              · exact h2 u hu
            · simp only [List.zip_cons_cons] at hp
              rcases List.mem_cons.1 hp with hp | hp
              · subst hp
                exact ⟨hv, fun _ => by simp [hsmp]⟩
              · exact h3 p hp
        · have hs2 : f.hasSampler = false := by simpa using hs
          simp only [forEach, textureStep, hidx, Debug.assert, hv, hs2, if_true,
            Bool.false_eq_true, if_false] at h
          obtain ⟨h1, h2, h3⟩ := hstep _ h
          refine ⟨by simpa using h1, fun u hu => ?_, fun p hp => ?_⟩
          · rcases List.mem_cons.1 hu with hu | hu
            · subst hu; exact hv
            · exact h2 u hu
          · simp only [List.zip_cons_cons] at hp
            rcases List.mem_cons.1 hp with hp | hp
            · subst hp
              exact ⟨hv, fun hh => by simp [hs2] at hh⟩
            · exact h3 p hp
      · simp [forEach, textureStep, hidx, Debug.assert, hv] at h

/-! ## `createDescriptor` as a whole -/

/-- The four loops of `createDescriptor` run one after the other; the call ends with the
exception of the first loop that throws, or with the descriptor of the entries
collected by all four. -/
theorem createDescriptor_cases (self : WebgpuBindGroup) (device : Device) (bg : BindGroup) :
    (∃ e st1,
      forEach (uniformBufferStep bg.format.uniformBufferFormats) bg.uniformBuffers 0
        { entries := [], debugFormat := "" } = (.error e, st1) ∧
      self.createDescriptor device bg =
        (.error e, { self with debugFormat := some st1.debugFormat })) ∨
    (∃ st1,
      forEach (uniformBufferStep bg.format.uniformBufferFormats) bg.uniformBuffers 0
        { entries := [], debugFormat := "" } = (.ok (), st1) ∧
      ((∃ e st2,
        forEach (textureStep device bg.format) bg.textures 0 st1 = (.error e, st2) ∧
        self.createDescriptor device bg =
          (.error e, { self with debugFormat := some st2.debugFormat })) ∨
      (∃ st2,
        forEach (textureStep device bg.format) bg.textures 0 st1 = (.ok (), st2) ∧
        ((∃ e st3,
          forEach (storageTextureStep device bg.format.storageTextureFormats)
            bg.storageTextures 0 st2 = (.error e, st3) ∧
          self.createDescriptor device bg =
            (.error e, { self with debugFormat := some st3.debugFormat })) ∨
        (∃ st3,
          forEach (storageTextureStep device bg.format.storageTextureFormats)
            bg.storageTextures 0 st2 = (.ok (), st3) ∧
          ((∃ e st4,
            forEach (storageBufferStep bg.format.storageBufferFormats) bg.storageBuffers 0
              st3 = (.error e, st4) ∧
            self.createDescriptor device bg =
              (.error e, { self with debugFormat := some st4.debugFormat })) ∨
          (∃ st4,
            forEach (storageBufferStep bg.format.storageBufferFormats) bg.storageBuffers 0
              st3 = (.ok (), st4) ∧
            self.createDescriptor device bg =
              (.ok { layout := bg.format.bindGroupLayout, entries := st4.entries,
                     label := some bg.name },
                { self with debugFormat := some st4.debugFormat })))))))) := by
  rcases h1 : forEach (uniformBufferStep bg.format.uniformBufferFormats) bg.uniformBuffers 0
    { entries := [], debugFormat := "" } with ⟨res1, st1⟩
  cases res1 with
  | error e =>
    left
    exact ⟨e, st1, rfl, by simp only [WebgpuBindGroup.createDescriptor, h1]⟩
  | ok u1 =>
    right
    refine ⟨st1, rfl, ?_⟩
    rcases h2 : forEach (textureStep device bg.format) bg.textures 0 st1 with ⟨res2, st2⟩
    cases res2 with
    | error e =>
      left
      exact ⟨e, st2, rfl, by simp only [WebgpuBindGroup.createDescriptor, h1, h2]⟩
    | ok u2 =>
      right
      refine ⟨st2, rfl, ?_⟩
      rcases h3 : forEach (storageTextureStep device bg.format.storageTextureFormats)
        bg.storageTextures 0 st2 with ⟨res3, st3⟩
      cases res3 with
      | error e =>
        left
        exact ⟨e, st3, rfl, by simp only [WebgpuBindGroup.createDescriptor, h1, h2, h3]⟩
      | ok u3 =>
        right
        refine ⟨st3, rfl, ?_⟩
        rcases h4 : forEach (storageBufferStep bg.format.storageBufferFormats)
          bg.storageBuffers 0 st3 with ⟨res4, st4⟩
        cases res4 with
        | error e =>
          left
          exact ⟨e, st4, rfl,
            by simp only [WebgpuBindGroup.createDescriptor, h1, h2, h3, h4]⟩
        | ok u4 =>
          right
          exact ⟨st4, rfl,
            by simp only [WebgpuBindGroup.createDescriptor, h1, h2, h3, h4]⟩

/-- When no resource list is longer than the list of the format and every resource
resolves, `createDescriptor` returns the descriptor of `descriptorItems` and leaves the
report of these items in `debugFormat`. -/
theorem createDescriptor_of_populated (self : WebgpuBindGroup) (device : Device)
    (bg : BindGroup) (hfit : bg.fitsFormat) (hpop : bg.populated device) :
    self.createDescriptor device bg =
      (.ok { layout := bg.format.bindGroupLayout
             entries := (descriptorItems device bg).map Prod.fst
             label := some bg.name },
        { self with debugFormat := some (reportOf (descriptorItems device bg) "") }) := by
  obtain ⟨f1, f2, f3, f4⟩ := hfit
  obtain ⟨p1, p2, p3, p4⟩ := hpop
  have e1 := fun st => forEach_uniformBufferStep_ok bg.uniformBuffers []
    bg.format.uniformBufferFormats st f1 p1
  have e2 := fun st => forEach_textureStep_ok device bg.format bg.textures []
    bg.format.textureFormats st rfl f2 p2
  have e3 := fun st => forEach_storageTextureStep_ok device bg.storageTextures []
    bg.format.storageTextureFormats st f3 p3
  have e4 := fun st => forEach_storageBufferStep_ok bg.storageBuffers []
    bg.format.storageBufferFormats st f4 p4
  simp only [List.nil_append, List.length_nil] at e1 e2 e3 e4
  simp only [WebgpuBindGroup.createDescriptor, e1, e2, e3, e4, descriptorItems,
    List.map_append, reportOf_append, List.nil_append, List.append_assoc]

/-- When `createDescriptor` returns a descriptor, no resource list was longer than the list
of the format and every resource resolved. -/
theorem createDescriptor_ok_inv (self : WebgpuBindGroup) (device : Device) (bg : BindGroup)
    (desc : GPUBindGroupDescriptor) (h : (self.createDescriptor device bg).1 = .ok desc) :
    bg.fitsFormat ∧ bg.populated device := by
  rcases createDescriptor_cases self device bg with
    ⟨e, st, _, hc⟩ | ⟨st1, h1, ⟨e, st, _, hc⟩ | ⟨st2, h2, ⟨e, st, _, hc⟩ |
      ⟨st3, h3, ⟨e, st, _, hc⟩ | ⟨st4, h4, _⟩⟩⟩⟩
  · rw [hc] at h; cases h
  · rw [hc] at h; cases h
  · rw [hc] at h; cases h
  · rw [hc] at h; cases h
  · have i1 := forEach_uniformBufferStep_inv bg.uniformBuffers []
      bg.format.uniformBufferFormats { entries := [], debugFormat := "" }
      (by
        show (forEach (uniformBufferStep bg.format.uniformBufferFormats) bg.uniformBuffers 0
          _).1 = _
        rw [h1])
    have i2 := forEach_textureStep_inv device bg.format bg.textures []
      bg.format.textureFormats st1 rfl
      (by
        show (forEach (textureStep device bg.format) bg.textures 0 _).1 = _
        rw [h2])
    have i3 := forEach_storageTextureStep_inv device bg.storageTextures []
      bg.format.storageTextureFormats st2
      (by
        show (forEach (storageTextureStep device bg.format.storageTextureFormats)
          bg.storageTextures 0 _).1 = _
        rw [h3])
    have i4 := forEach_storageBufferStep_inv bg.storageBuffers []
      bg.format.storageBufferFormats st3
      (by
        show (forEach (storageBufferStep bg.format.storageBufferFormats) bg.storageBuffers 0
          _).1 = _
        rw [h4])
    exact ⟨⟨i1.1, i2.1, i3.1, i4.1⟩, ⟨i1.2, i2.2.2, i3.2, i4.2⟩⟩

/-- With resource lists of the lengths of the format lists, the only exception of
`createDescriptor` is `NullResource`. -/
theorem createDescriptor_error_of_matchesFormat (self : WebgpuBindGroup) (device : Device)
    (bg : BindGroup) (hm : bg.matchesFormat) (e : Error)
    (h : (self.createDescriptor device bg).1 = .error e) : e = Error.NullResource := by
  obtain ⟨m1, m2, m3, m4⟩ := hm
  rcases createDescriptor_cases self device bg with
    ⟨e1, st, h1, hc⟩ | ⟨st1, _, ⟨e1, st, h2, hc⟩ | ⟨st2, _, ⟨e1, st, h3, hc⟩ |
      ⟨st3, _, ⟨e1, st, h4, hc⟩ | ⟨st4, _, hc⟩⟩⟩⟩
  · rw [hc] at h
    injection h with h
    subst h
    refine (forEach_uniformBufferStep bg.uniformBuffers [] bg.format.uniformBufferFormats
      { entries := [], debugFormat := "" } m1).2.1 e1 ?_
    show (forEach (uniformBufferStep bg.format.uniformBufferFormats) bg.uniformBuffers 0
      _).1 = _
    rw [h1]
  · rw [hc] at h
    injection h with h
    subst h
    refine (forEach_textureStep device bg.format bg.textures [] bg.format.textureFormats st1
      rfl m2).2.1 e1 ?_
    show (forEach (textureStep device bg.format) bg.textures 0 _).1 = _
    rw [h2]
  · rw [hc] at h
    injection h with h
    subst h
    refine (forEach_storageTextureStep device bg.storageTextures []
      bg.format.storageTextureFormats st2 m3).2.1 e1 ?_
    show (forEach (storageTextureStep device bg.format.storageTextureFormats)
      bg.storageTextures 0 _).1 = _
    rw [h3]
  · rw [hc] at h
    injection h with h
    subst h
    refine (forEach_storageBufferStep bg.storageBuffers [] bg.format.storageBufferFormats st3
      m4).2.1 e1 ?_
    show (forEach (storageBufferStep bg.format.storageBufferFormats) bg.storageBuffers 0
      _).1 = _
    rw [h4]
  · rw [hc] at h; cases h

theorem getElem?_zipWith_of_le {α β γ : Type} (f : α → β → γ) (as : List α) (bs : List β)
    (hle : bs.length ≤ as.length) (i : Nat) (b : β) (hb : bs[i]? = some b) :
    ∃ a, as[i]? = some a ∧ (List.zipWith f as bs)[i]? = some (f a b) := by
  have hi : i < bs.length := by
    rcases Nat.lt_or_ge i bs.length with h | h
    · exact h
    · rw [List.getElem?_eq_none h] at hb; cases hb
  have hia : i < as.length := Nat.lt_of_lt_of_le hi hle
  refine ⟨as[i], List.getElem?_eq_getElem hia, ?_⟩
  rw [List.getElem?_zipWith, List.getElem?_eq_getElem hia, hb]

theorem exists_mem_zip_of_mem {α β : Type} (as : List α) (bs : List β)
    (hle : bs.length ≤ as.length) (b : β) (hb : b ∈ bs) : ∃ a, (a, b) ∈ List.zip as bs := by
  induction bs generalizing as with
  | nil => cases hb
  | cons x bs ih =>
    cases as with
    | nil => simp at hle
    | cons a as =>
      rcases List.mem_cons.1 hb with hb | hb
      · subst hb
        exact ⟨a, by simp⟩
      · obtain ⟨a2, ha2⟩ := ih as (by simpa using hle) hb
        exact ⟨a2, by simp only [List.zip_cons_cons]; exact List.mem_cons_of_mem _ ha2⟩

theorem forEach_uniformBufferStep_error (ubs : List UniformBuffer)
    (pre rest : List BindUniformBufferFormat) (st : DescriptorState)
    (hlen : ubs.length ≤ rest.length) (e : Error)
    (h : (forEach (uniformBufferStep (pre ++ rest)) ubs pre.length st).1 = .error e) :
    e = Error.NullResource := by
  induction ubs generalizing pre rest st with
  | nil => simp [forEach] at h
  | cons ub ubs ih =>
    cases rest with
    | nil => simp at hlen
    | cons f rest =>
      have hstep := ih (pre ++ [f]) rest
      simp only [List.append_assoc, List.singleton_append, List.length_append,
        List.length_singleton] at hstep
      by_cases hb : (if ub.persistent then ub.implBuffer else ub.allocationBuffer).isSome = true
      · simp only [forEach, uniformBufferStep, getElem?_append_cons_length, Debug.assert, hb,
          if_true] at h
        exact hstep _ (by simpa using hlen) h
      · simp only [forEach, uniformBufferStep, getElem?_append_cons_length, Debug.assert, hb]
          at h
        injection h with h
        exact h.symm

theorem forEach_textureStep_error (device : Device) (format : BindGroupFormat)
    (texs : List Texture) (pre rest : List BindTextureFormat) (st : DescriptorState)
    (hf : format.textureFormats = pre ++ rest) (hlen : texs.length ≤ rest.length) (e : Error)
    (h : (forEach (textureStep device format) texs pre.length st).1 = .error e) :
    e = Error.NullResource := by
  induction texs generalizing pre rest st with
  | nil => simp [forEach] at h
  | cons tex texs ih =>
    cases rest with
    | nil => simp at hlen
    | cons f rest =>
      have hstep := fun st2 => ih (pre ++ [f]) rest st2 (by rw [hf]; simp)
        (by simpa using hlen)
      simp only [List.length_append, List.length_singleton] at hstep
      have hidx : format.textureFormats[pre.length]? = some f := by
        rw [hf]; exact getElem?_append_cons_length pre rest f
      by_cases hv : (tex.getView device).isSome = true
      · by_cases hs : f.hasSampler = true
        · cases hsmp : tex.getSampler device f.sampleType with
          | none =>
            simp only [forEach, textureStep, hidx, Debug.assert, hv, hs, hsmp, if_true,
              Option.isSome_none] at h
            injection h with h
            exact h.symm
          | some smp =>
            simp only [forEach, textureStep, hidx, Debug.assert, hv, hs, hsmp, if_true,
              Option.isSome_some] at h
            exact hstep _ h
        · have hs2 : f.hasSampler = false := by simpa using hs
          simp only [forEach, textureStep, hidx, Debug.assert, hv, hs2, if_true,
            Bool.false_eq_true, if_false] at h
          exact hstep _ h
      · simp only [forEach, textureStep, hidx, Debug.assert, hv] at h
        injection h with h
        exact h.symm

theorem forEach_storageTextureStep_error (device : Device) (texs : List Texture)
    (pre rest : List BindStorageTextureFormat) (st : DescriptorState)
    (hlen : texs.length ≤ rest.length) (e : Error)
    (h : (forEach (storageTextureStep device (pre ++ rest)) texs pre.length st).1 = .error e) :
    e = Error.NullResource := by
  induction texs generalizing pre rest st with
  | nil => simp [forEach] at h
  | cons tex texs ih =>
    cases rest with
    | nil => simp at hlen
    | cons f rest =>
      have hstep := ih (pre ++ [f]) rest
      simp only [List.append_assoc, List.singleton_append, List.length_append,
        List.length_singleton] at hstep
      by_cases hv : (tex.getView device).isSome = true
      · simp only [forEach, storageTextureStep, getElem?_append_cons_length, Debug.assert, hv,
          if_true] at h
        exact hstep _ (by simpa using hlen) h
      · simp only [forEach, storageTextureStep, getElem?_append_cons_length, Debug.assert, hv]
          at h
        injection h with h
        exact h.symm

theorem forEach_storageBufferStep_error (bufs : List StorageBuffer)
    (pre rest : List BindStorageBufferFormat) (st : DescriptorState)
    (hlen : bufs.length ≤ rest.length) (e : Error)
    (h : (forEach (storageBufferStep (pre ++ rest)) bufs pre.length st).1 = .error e) :
    e = Error.NullResource := by
  induction bufs generalizing pre rest st with
  | nil => simp [forEach] at h
  | cons buf bufs ih =>
    cases rest with
    | nil => simp at hlen
    | cons f rest =>
      have hstep := ih (pre ++ [f]) rest
      simp only [List.append_assoc, List.singleton_append, List.length_append,
        List.length_singleton] at hstep
      by_cases hb : buf.implBuffer.isSome = true
      · simp only [forEach, storageBufferStep, getElem?_append_cons_length, Debug.assert, hb,
          if_true] at h
        exact hstep _ (by simpa using hlen) h
      · simp only [forEach, storageBufferStep, getElem?_append_cons_length, Debug.assert, hb]
          at h
        injection h with h
        exact h.symm

/-- When no resource list is longer than the list of the format, the only exception of
`createDescriptor` is `NullResource`. -/
theorem createDescriptor_error_of_fitsFormat (self : WebgpuBindGroup) (device : Device)
    (bg : BindGroup) (hfit : bg.fitsFormat) (e : Error)
    (h : (self.createDescriptor device bg).1 = .error e) : e = Error.NullResource := by
  obtain ⟨m1, m2, m3, m4⟩ := hfit
  rcases createDescriptor_cases self device bg with
    ⟨e1, st, h1, hc⟩ | ⟨st1, _, ⟨e1, st, h2, hc⟩ | ⟨st2, _, ⟨e1, st, h3, hc⟩ |
      ⟨st3, _, ⟨e1, st, h4, hc⟩ | ⟨st4, _, hc⟩⟩⟩⟩
  · rw [hc] at h
    injection h with h
    subst h
    refine forEach_uniformBufferStep_error bg.uniformBuffers [] bg.format.uniformBufferFormats
      { entries := [], debugFormat := "" } m1 e1 ?_
    show (forEach (uniformBufferStep bg.format.uniformBufferFormats) bg.uniformBuffers 0
      _).1 = _
    rw [h1]
  · rw [hc] at h
    injection h with h
    subst h
    refine forEach_textureStep_error device bg.format bg.textures [] bg.format.textureFormats
      st1 rfl m2 e1 ?_
    show (forEach (textureStep device bg.format) bg.textures 0 _).1 = _
    rw [h2]
  · rw [hc] at h
    injection h with h
    subst h
    refine forEach_storageTextureStep_error device bg.storageTextures []
      bg.format.storageTextureFormats st2 m3 e1 ?_
    show (forEach (storageTextureStep device bg.format.storageTextureFormats)
      bg.storageTextures 0 _).1 = _
    rw [h3]
  · rw [hc] at h
    injection h with h
    subst h
    refine forEach_storageBufferStep_error bg.storageBuffers [] bg.format.storageBufferFormats
      st3 m4 e1 ?_
    show (forEach (storageBufferStep bg.format.storageBufferFormats) bg.storageBuffers 0
      _).1 = _
    rw [h4]
  · rw [hc] at h; cases h

/-! ## Further theorems on `createDescriptor` -/

/-- C11: whenever `createDescriptor` returns a descriptor, the entry at position `i` is the
entry of the uniform buffer at position `i` of the bind group: its binding is the slot
of `format.uniformBufferFormats[i]`, its offset is 0, its size is the byte size of the
format of the uniform buffer, and its buffer is `impl.buffer` for a persistent uniform
buffer and `allocation.gpuBuffer.buffer` otherwise (a buffer that is not null); the
offset is 0 in both cases. -/
theorem createDescriptor_uniformBuffer_entry (self : WebgpuBindGroup) (device : Device)
    (bg : BindGroup) (desc : GPUBindGroupDescriptor)
    (h : (self.createDescriptor device bg).1 = .ok desc) (i : Nat) (ub : UniformBuffer)
    (hub : bg.uniformBuffers[i]? = some ub) :
    ∃ f, bg.format.uniformBufferFormats[i]? = some f ∧
      desc.entries[i]? = some
        { binding := f.slot
          resource := .bufferBinding
            (if ub.persistent then ub.implBuffer else ub.allocationBuffer)
            (some 0) (some ub.byteSize) } ∧
      (if ub.persistent then ub.implBuffer else ub.allocationBuffer).isSome = true := by
  obtain ⟨hfit, hpop⟩ := createDescriptor_ok_inv self device bg desc h
  rw [createDescriptor_of_populated self device bg hfit hpop] at h
  injection h with h
  subst h
  obtain ⟨f, hf, hz⟩ := getElem?_zipWith_of_le uniformBufferItem
    bg.format.uniformBufferFormats bg.uniformBuffers hfit.1 i ub hub
  have hi : i < (List.zipWith uniformBufferItem bg.format.uniformBufferFormats
      bg.uniformBuffers).length := by
    rcases Nat.lt_or_ge i (List.zipWith uniformBufferItem bg.format.uniformBufferFormats
      bg.uniformBuffers).length with hlt | hge
    · exact hlt
    · rw [List.getElem?_eq_none hge] at hz; cases hz
  refine ⟨f, hf, ?_, hpop.1 ub (List.getElem?_mem hub)⟩
  simp only [descriptorItems, List.append_assoc, List.map_append]
  rw [List.getElem?_append_left (by rw [List.length_map]; exact hi), List.getElem?_map, hz]
  rfl

theorem createDescriptor_uniformBuffer_entry_witness :
    (WebgpuBindGroup.new.createDescriptor 0 exampleBindGroup).1 = .ok
      { layout := 7
        entries :=
          [{ binding := 0, resource := .bufferBinding (some 10) (some 0) (some 64) },
           { binding := 1, resource := .textureView (some 20) },
           { binding := 2, resource := .sampler (some { id := 30, label := "sampler" }) },
           { binding := 3, resource := .bufferBinding (some 40) none none }]
        label := some "example" } ∧
    exampleBindGroup.uniformBuffers[0]? = some
      { persistent := true, implBuffer := some 10, allocationBuffer := none, byteSize := 64 } ∧
    ∃ f, exampleBindGroup.format.uniformBufferFormats[0]? = some f ∧
      ([{ binding := 0, resource := .bufferBinding (some 10) (some 0) (some 64) },
        { binding := 1, resource := .textureView (some 20) },
        { binding := 2, resource := .sampler (some { id := 30, label := "sampler" }) },
        { binding := 3, resource := .bufferBinding (some 40) none none }] :
          List GPUBindGroupEntry)[0]? = some
        { binding := f.slot
          resource := .bufferBinding
            (if true then (some 10 : Option GPUBuffer) else none) (some 0) (some 64) } ∧
      (if true then (some 10 : Option GPUBuffer) else none).isSome = true :=
  ⟨by rfl, by rfl,
    createDescriptor_uniformBuffer_entry WebgpuBindGroup.new 0 exampleBindGroup _ (by rfl) 0
      { persistent := true, implBuffer := some 10, allocationBuffer := none, byteSize := 64 }
      (by rfl)⟩

/-- C12 (as stated, refuted): `extraUniformBufferNullViewBindGroup` has a texture whose view
is null, and `createDescriptor` ends on it with the `TypeError` of the slot lookup for
its uniform buffer, which the format has no slot for, and not with `NullResource`. -/
theorem createDescriptor_null_view_counterexample :
    (∃ t, t ∈ extraUniformBufferNullViewBindGroup.textures ∧ t.getView 0 = none) ∧
    (WebgpuBindGroup.new.createDescriptor 0 extraUniformBufferNullViewBindGroup).1 =
      .error Error.TypeError ∧
    (WebgpuBindGroup.new.createDescriptor 0 extraUniformBufferNullViewBindGroup).1 ≠
      .error Error.NullResource :=
  ⟨⟨{ getView := fun _ => none, getSampler := fun _ _ => none },
      by simp [extraUniformBufferNullViewBindGroup, nullViewBindGroup], rfl⟩,
    by rfl, by
      have h : (WebgpuBindGroup.new.createDescriptor 0
          extraUniformBufferNullViewBindGroup).1 = .error Error.TypeError := by rfl
      rw [h]
      exact fun hh => by injection hh with hh; cases hh⟩

/-- C12 (amended): for every bind group with a texture (or storage texture) whose view is
null, `createDescriptor` ends with an exception and returns no descriptor; the exception
is `NullResource` whenever no resource list of the bind group is longer than the
corresponding list of the format (the lists may be shorter). -/
theorem createDescriptor_null_view (self : WebgpuBindGroup) (device : Device) (bg : BindGroup)
    (hnull : ∃ t, (t ∈ bg.textures ∨ t ∈ bg.storageTextures) ∧ t.getView device = none) :
    (∃ e, (self.createDescriptor device bg).1 = .error e) ∧
    (∀ desc, (self.createDescriptor device bg).1 ≠ .ok desc) ∧
    (bg.fitsFormat → (self.createDescriptor device bg).1 = .error Error.NullResource) := by
  obtain ⟨t, ht, hview⟩ := hnull
  have hno : ∀ desc, (self.createDescriptor device bg).1 ≠ .ok desc := by
    intro desc h
    obtain ⟨hfit, hpop⟩ := createDescriptor_ok_inv self device bg desc h
    rcases ht with ht | ht
    · obtain ⟨f, hf⟩ := exists_mem_zip_of_mem bg.format.textureFormats bg.textures hfit.2.1 t ht
      have := (hpop.2.1 (f, t) hf).1
      simp only at this
      rw [hview] at this
      cases this
    · have := hpop.2.2.1 t ht
      rw [hview] at this
      cases this
  have hex : ∃ e, (self.createDescriptor device bg).1 = .error e := by
    cases hr : (self.createDescriptor device bg).1 with
    | error e => exact ⟨e, rfl⟩
    | ok desc => exact absurd hr (hno desc)
  refine ⟨hex, hno, fun hm => ?_⟩
  obtain ⟨e, he⟩ := hex
  rw [he, createDescriptor_error_of_fitsFormat self device bg hm e he]

theorem createDescriptor_null_view_witness :
    (∃ t, (t ∈ unusedSlotNullViewBindGroup.textures ∨
        t ∈ unusedSlotNullViewBindGroup.storageTextures) ∧ t.getView 0 = none) ∧
    unusedSlotNullViewBindGroup.fitsFormat ∧ ¬ unusedSlotNullViewBindGroup.matchesFormat ∧
    (WebgpuBindGroup.new.createDescriptor 0 unusedSlotNullViewBindGroup).1 =
      .error Error.NullResource ∧
    ((∃ e, (WebgpuBindGroup.new.createDescriptor 0 unusedSlotNullViewBindGroup).1 =
      .error e) ∧
    (∀ desc, (WebgpuBindGroup.new.createDescriptor 0 unusedSlotNullViewBindGroup).1 ≠
      .ok desc) ∧
    (unusedSlotNullViewBindGroup.fitsFormat →
      (WebgpuBindGroup.new.createDescriptor 0 unusedSlotNullViewBindGroup).1 =
        .error Error.NullResource)) ∧
    (nullViewBindGroup.fitsFormat →
      (WebgpuBindGroup.new.createDescriptor 0 nullViewBindGroup).1 =
        .error Error.NullResource) :=
  ⟨⟨{ getView := fun _ => none, getSampler := fun _ _ => none },
      Or.inl (by simp [unusedSlotNullViewBindGroup, nullViewBindGroup]), rfl⟩,
    by simp [BindGroup.fitsFormat, unusedSlotNullViewBindGroup, nullViewBindGroup],
    by simp [BindGroup.matchesFormat, unusedSlotNullViewBindGroup, nullViewBindGroup],
    (createDescriptor_null_view WebgpuBindGroup.new 0 unusedSlotNullViewBindGroup
      ⟨{ getView := fun _ => none, getSampler := fun _ _ => none },
        Or.inl (by simp [unusedSlotNullViewBindGroup, nullViewBindGroup]), rfl⟩).2.2
      (by simp [BindGroup.fitsFormat, unusedSlotNullViewBindGroup, nullViewBindGroup]),
    createDescriptor_null_view WebgpuBindGroup.new 0 unusedSlotNullViewBindGroup
      ⟨{ getView := fun _ => none, getSampler := fun _ _ => none },
        Or.inl (by simp [unusedSlotNullViewBindGroup, nullViewBindGroup]), rfl⟩,
    (createDescriptor_null_view WebgpuBindGroup.new 0 nullViewBindGroup
      ⟨{ getView := fun _ => none, getSampler := fun _ _ => none },
        Or.inl (by simp [nullViewBindGroup]), rfl⟩).2.2⟩

/-- C13 (as stated, refuted): the storage buffer list of `missingStorageBufferBindGroup` is
shorter than the list of its format (no storage buffer for one declared slot), and
`createDescriptor` returns a descriptor, with the entries of the resources present. -/
theorem createDescriptor_shorter_list_counterexample :
    missingStorageBufferBindGroup.storageBuffers.length ≠
      missingStorageBufferBindGroup.format.storageBufferFormats.length ∧
    (WebgpuBindGroup.new.createDescriptor 0 missingStorageBufferBindGroup).1 = .ok
      { layout := 7
        entries :=
          [{ binding := 0, resource := .bufferBinding (some 10) (some 0) (some 64) },
           { binding := 1, resource := .textureView (some 20) },
           { binding := 2, resource := .sampler (some { id := 30, label := "sampler" }) }]
        label := some "missingStorageBuffer" } :=
  ⟨by decide, by rfl⟩

/-- C13 (amended): for every bind group in which some resource list is longer than the
corresponding list of the format, `createDescriptor` ends with an exception and returns
no descriptor. A shorter list is not an error: when no list is longer than the list of
the format and every resource resolves, `createDescriptor` returns a descriptor. -/
theorem createDescriptor_length_mismatch (self : WebgpuBindGroup) (device : Device)
    (bg : BindGroup) :
    (¬ bg.fitsFormat → ∃ e, (self.createDescriptor device bg).1 = .error e) ∧
    (bg.fitsFormat → bg.populated device →
      ∃ desc, (self.createDescriptor device bg).1 = .ok desc) := by
  constructor
  · intro hnot
    cases hr : (self.createDescriptor device bg).1 with
    | error e => exact ⟨e, rfl⟩
    | ok desc => exact absurd (createDescriptor_ok_inv self device bg desc hr).1 hnot
  · intro hfit hpop
    exact ⟨_, by rw [createDescriptor_of_populated self device bg hfit hpop]⟩

theorem createDescriptor_length_mismatch_witness :
    ¬ extraUniformBufferBindGroup.fitsFormat ∧
    (WebgpuBindGroup.new.createDescriptor 0 extraUniformBufferBindGroup).1 =
      .error Error.TypeError ∧
    missingStorageBufferBindGroup.fitsFormat ∧ missingStorageBufferBindGroup.populated 0 ∧
    (∃ e, (WebgpuBindGroup.new.createDescriptor 0 extraUniformBufferBindGroup).1 = .error e) ∧
    (∃ desc, (WebgpuBindGroup.new.createDescriptor 0 missingStorageBufferBindGroup).1 =
      .ok desc) :=
  ⟨by simp [BindGroup.fitsFormat, extraUniformBufferBindGroup, exampleBindGroup],
    by rfl,
    by simp [BindGroup.fitsFormat, missingStorageBufferBindGroup, exampleBindGroup],
    by simp [BindGroup.populated, missingStorageBufferBindGroup, exampleBindGroup],
    (createDescriptor_length_mismatch WebgpuBindGroup.new 0 extraUniformBufferBindGroup).1
      (by simp [BindGroup.fitsFormat, extraUniformBufferBindGroup, exampleBindGroup]),
    (createDescriptor_length_mismatch WebgpuBindGroup.new 0 missingStorageBufferBindGroup).2
      (by simp [BindGroup.fitsFormat, missingStorageBufferBindGroup, exampleBindGroup])
      (by simp [BindGroup.populated, missingStorageBufferBindGroup, exampleBindGroup])⟩

/-- C15: whenever `createDescriptor` returns a descriptor, its entries end with one entry per
storage texture followed by one entry per storage buffer. The entry of the storage
texture at position `i` has the slot of `format.storageTextureFormats[i]` as binding and
the view of the texture as resource (never a sampler); the entry of the storage buffer
at position `i` has the slot of `format.storageBufferFormats[i]` as binding and a
resource that holds the native buffer only, without offset and without size. -/
theorem createDescriptor_storage_entries (self : WebgpuBindGroup) (device : Device)
    (bg : BindGroup) (desc : GPUBindGroupDescriptor)
    (h : (self.createDescriptor device bg).1 = .ok desc) :
    ∃ front textureEntries bufferEntries : List GPUBindGroupEntry,
      desc.entries = front ++ textureEntries ++ bufferEntries ∧
      textureEntries.length = bg.storageTextures.length ∧
      bufferEntries.length = bg.storageBuffers.length ∧
      (∀ (i : Nat) (t : Texture), bg.storageTextures[i]? = some t →
        ∃ f, bg.format.storageTextureFormats[i]? = some f ∧
          textureEntries[i]? = some
            { binding := f.slot, resource := .textureView (t.getView device) }) ∧
      (∀ (i : Nat) (b : StorageBuffer), bg.storageBuffers[i]? = some b →
        ∃ f, bg.format.storageBufferFormats[i]? = some f ∧
          bufferEntries[i]? = some
            { binding := f.slot, resource := .bufferBinding b.implBuffer none none }) := by
  obtain ⟨hfit, hpop⟩ := createDescriptor_ok_inv self device bg desc h
  rw [createDescriptor_of_populated self device bg hfit hpop] at h
  injection h with h
  subst h
  refine ⟨(List.zipWith uniformBufferItem bg.format.uniformBufferFormats bg.uniformBuffers ++
      (List.zipWith (textureItems device) bg.format.textureFormats
        bg.textures).flatten).map Prod.fst,
    (List.zipWith (storageTextureItem device) bg.format.storageTextureFormats
      bg.storageTextures).map Prod.fst,
    (List.zipWith storageBufferItem bg.format.storageBufferFormats
      bg.storageBuffers).map Prod.fst, ?_, ?_, ?_, ?_, ?_⟩
  · simp only [descriptorItems, List.map_append, List.append_assoc]
  · rw [List.length_map, List.length_zipWith]
    exact Nat.min_eq_right hfit.2.2.1
  · rw [List.length_map, List.length_zipWith]
    exact Nat.min_eq_right hfit.2.2.2
  · intro i t ht
    obtain ⟨f, hf, hz⟩ := getElem?_zipWith_of_le (storageTextureItem device)
      bg.format.storageTextureFormats bg.storageTextures hfit.2.2.1 i t ht
    refine ⟨f, hf, ?_⟩
    rw [List.getElem?_map, hz]
    rfl
  · intro i b hb
    obtain ⟨f, hf, hz⟩ := getElem?_zipWith_of_le storageBufferItem
      bg.format.storageBufferFormats bg.storageBuffers hfit.2.2.2 i b hb
    refine ⟨f, hf, ?_⟩
    rw [List.getElem?_map, hz]
    rfl

theorem createDescriptor_storage_entries_witness :
    (WebgpuBindGroup.new.createDescriptor 0 storageBindGroup).1 = .ok
      { layout := 8
        entries :=
          [{ binding := 0, resource := .textureView (some 21) },
           { binding := 1, resource := .bufferBinding (some 41) none none }]
        label := some "storage" } ∧
    ∃ front textureEntries bufferEntries : List GPUBindGroupEntry,
      ([{ binding := 0, resource := .textureView (some 21) },
        { binding := 1, resource := .bufferBinding (some 41) none none }] :
          List GPUBindGroupEntry) = front ++ textureEntries ++ bufferEntries ∧
      textureEntries.length = storageBindGroup.storageTextures.length ∧
      bufferEntries.length = storageBindGroup.storageBuffers.length ∧
      (∀ (i : Nat) (t : Texture), storageBindGroup.storageTextures[i]? = some t →
        ∃ f, storageBindGroup.format.storageTextureFormats[i]? = some f ∧
          textureEntries[i]? = some
            { binding := f.slot, resource := .textureView (t.getView 0) }) ∧
      (∀ (i : Nat) (b : StorageBuffer), storageBindGroup.storageBuffers[i]? = some b →
        ∃ f, storageBindGroup.format.storageBufferFormats[i]? = some f ∧
          bufferEntries[i]? = some
            { binding := f.slot, resource := .bufferBinding b.implBuffer none none }) :=
  ⟨by rfl,
    createDescriptor_storage_entries WebgpuBindGroup.new 0 storageBindGroup _ (by rfl)⟩

/-- What `createDescriptor` returns and writes does not depend on the `debugFormat` the
`WebgpuBindGroup` had before, and `bindGroup` is left as it was. -/
theorem createDescriptor_eq_new (self : WebgpuBindGroup) (device : Device) (bg : BindGroup) :
    self.createDescriptor device bg =
      ((WebgpuBindGroup.new.createDescriptor device bg).1,
        { bindGroup := self.bindGroup
          debugFormat := (WebgpuBindGroup.new.createDescriptor device bg).2.debugFormat }) := by
  rcases createDescriptor_cases WebgpuBindGroup.new device bg with
    ⟨e, st, h1, hc⟩ | ⟨st1, h1, ⟨e, st, h2, hc⟩ | ⟨st2, h2, ⟨e, st, h3, hc⟩ |
      ⟨st3, h3, ⟨e, st, h4, hc⟩ | ⟨st4, h4, hc⟩⟩⟩⟩
  · rw [hc]; simp only [WebgpuBindGroup.createDescriptor, h1]
  · rw [hc]; simp only [WebgpuBindGroup.createDescriptor, h1, h2]
  · rw [hc]; simp only [WebgpuBindGroup.createDescriptor, h1, h2, h3]
  · rw [hc]; simp only [WebgpuBindGroup.createDescriptor, h1, h2, h3, h4]
  · rw [hc]; simp only [WebgpuBindGroup.createDescriptor, h1, h2, h3, h4]

/-- C17: in the debug configuration, whenever `createDescriptor` returns a descriptor, its
entries are the entries of `descriptorItems` and `debugFormat` is the report of these
items: for each entry, in the order of the entries, one line made of the binding number
of the entry, `: `, a text and a newline, the text being `UB` for a uniform buffer, `SB`
for a storage buffer, the label of the sampler for a sampler and the name of the format
slot for a texture view. The report starts from the empty text at every call: what
`debugFormat` held before the call has no influence on what it holds after. -/
theorem createDescriptor_debugFormat (self : WebgpuBindGroup) (device : Device)
    (bg : BindGroup) :
    (∀ desc, (self.createDescriptor device bg).1 = .ok desc →
      desc.entries = (descriptorItems device bg).map Prod.fst ∧
      (self.createDescriptor device bg).2.debugFormat =
        some ((descriptorItems device bg).foldl
          (fun report item => report ++ reportLine item.1.binding item.2) "")) ∧
    (∀ other : WebgpuBindGroup,
      (other.createDescriptor device bg).2.debugFormat =
        (self.createDescriptor device bg).2.debugFormat) := by
  constructor
  · intro desc h
    obtain ⟨hfit, hpop⟩ := createDescriptor_ok_inv self device bg desc h
    rw [createDescriptor_of_populated self device bg hfit hpop] at h ⊢
    injection h with h
    subst h
    exact ⟨rfl, rfl⟩
  · intro other
    rw [createDescriptor_eq_new other, createDescriptor_eq_new self]

theorem createDescriptor_debugFormat_witness :
    (WebgpuBindGroup.createDescriptor { bindGroup := some 5, debugFormat := some "9: UB\n" } 0
      exampleBindGroup).2.debugFormat = some "0: UB\n1: map\n2: sampler\n3: SB\n" ∧
    (descriptorItems 0 exampleBindGroup).map (fun item => reportLine item.1.binding item.2) =
      ["0: UB\n", "1: map\n", "2: sampler\n", "3: SB\n"] ∧
    (∀ desc, (WebgpuBindGroup.createDescriptor
        { bindGroup := some 5, debugFormat := some "9: UB\n" } 0 exampleBindGroup).1 =
          .ok desc →
      desc.entries = (descriptorItems 0 exampleBindGroup).map Prod.fst ∧
      (WebgpuBindGroup.createDescriptor { bindGroup := some 5, debugFormat := some "9: UB\n" }
        0 exampleBindGroup).2.debugFormat =
        some ((descriptorItems 0 exampleBindGroup).foldl
          (fun report item => report ++ reportLine item.1.binding item.2) "")) ∧
    (∀ other : WebgpuBindGroup,
      (other.createDescriptor 0 exampleBindGroup).2.debugFormat =
        (WebgpuBindGroup.createDescriptor
          { bindGroup := some 5, debugFormat := some "9: UB\n" } 0
          exampleBindGroup).2.debugFormat) :=
  ⟨by rfl, by rfl,
    createDescriptor_debugFormat { bindGroup := some 5, debugFormat := some "9: UB\n" } 0
      exampleBindGroup⟩

/-! ## Theorems on `update` and `destroy` -/

/-- C14: for every `WebgpuBindGroup` state, holding a native bind group or none, and every
bind group, `destroy()` followed by `update(bindGroup)` ends exactly as
`update(bindGroup)` on a new `WebgpuBindGroup` does (same result, same state); when
`createDescriptor` returns a descriptor, `update` succeeds and the native bind group held
afterwards is the one the native `createBindGroup` returns for this descriptor.
`destroy()` leaves no native bind group held, and a second `destroy()` changes
nothing. -/
theorem update_after_destroy (createBindGroup : Device → GPUBindGroupDescriptor → Nat)
    (self : WebgpuBindGroup) (bg : BindGroup) :
    WebgpuBindGroup.update createBindGroup self.destroy bg =
      WebgpuBindGroup.update createBindGroup WebgpuBindGroup.new bg ∧
    (∀ desc, (self.destroy.createDescriptor bg.device bg).1 = .ok desc →
      (WebgpuBindGroup.update createBindGroup self.destroy bg).1 = .ok () ∧
      (WebgpuBindGroup.update createBindGroup self.destroy bg).2.bindGroup =
        some (createBindGroup bg.device desc)) ∧
    self.destroy.bindGroup = none ∧
    self.destroy.destroy = self.destroy := by
  refine ⟨?_, ?_, rfl, rfl⟩
  · simp only [WebgpuBindGroup.update]
    rw [createDescriptor_eq_new self.destroy.destroy,
      createDescriptor_eq_new WebgpuBindGroup.new.destroy]
    rfl
  · intro desc h
    have h2 : (self.destroy.destroy.createDescriptor bg.device bg).1 = .ok desc := h
    simp only [WebgpuBindGroup.update]
    rcases hc : self.destroy.destroy.createDescriptor bg.device bg with ⟨res, st⟩
    rw [hc] at h2
    simp only at h2
    subst h2
    exact ⟨rfl, rfl⟩

theorem update_after_destroy_witness :
    (WebgpuBindGroup.destroy { bindGroup := some 5, debugFormat := some "9: UB\n" }).bindGroup =
      none ∧
    (WebgpuBindGroup.update (fun _ desc => 100 + desc.entries.length)
      (WebgpuBindGroup.destroy { bindGroup := some 5, debugFormat := some "9: UB\n" })
      exampleBindGroup).2.bindGroup = some 104 ∧
    (WebgpuBindGroup.update (fun _ desc => 100 + desc.entries.length)
        (WebgpuBindGroup.destroy { bindGroup := some 5, debugFormat := some "9: UB\n" })
        exampleBindGroup =
      WebgpuBindGroup.update (fun _ desc => 100 + desc.entries.length) WebgpuBindGroup.new
        exampleBindGroup ∧
    (∀ desc, ((WebgpuBindGroup.destroy
        { bindGroup := some 5, debugFormat := some "9: UB\n" }).createDescriptor
          exampleBindGroup.device exampleBindGroup).1 = .ok desc →
      (WebgpuBindGroup.update (fun _ desc => 100 + desc.entries.length)
        (WebgpuBindGroup.destroy { bindGroup := some 5, debugFormat := some "9: UB\n" })
        exampleBindGroup).1 = .ok () ∧
      (WebgpuBindGroup.update (fun _ desc => 100 + desc.entries.length)
        (WebgpuBindGroup.destroy { bindGroup := some 5, debugFormat := some "9: UB\n" })
        exampleBindGroup).2.bindGroup =
        some ((fun _ desc => 100 + desc.entries.length) exampleBindGroup.device desc)) ∧
    (WebgpuBindGroup.destroy { bindGroup := some 5, debugFormat := some "9: UB\n" }).bindGroup =
      none ∧
    (WebgpuBindGroup.destroy
      (WebgpuBindGroup.destroy { bindGroup := some 5, debugFormat := some "9: UB\n" })) =
      WebgpuBindGroup.destroy { bindGroup := some 5, debugFormat := some "9: UB\n" }) :=
  ⟨by rfl, by rfl,
    update_after_destroy (fun _ desc => 100 + desc.entries.length)
      { bindGroup := some 5, debugFormat := some "9: UB\n" } exampleBindGroup⟩

/-! ## Options that carry `name` or `index` -/

theorem JSMap.get_set_self {α : Type} (m : List (String × α)) (k : String) (v : α) :
    JSMap.get (JSMap.set m k v) k = some v := by
  induction m with
  | nil => simp [JSMap.set, JSMap.get]
  | cons p m ih =>
    obtain ⟨k', v'⟩ := p
    by_cases hk : k' = k
    · simp [JSMap.set, JSMap.get, hk]
    · simp [JSMap.set, JSMap.get, hk, ih]

theorem JSMap.get_set_of_ne {α : Type} (m : List (String × α)) (k k2 : String) (v : α)
    (hne : k ≠ k2) : JSMap.get (JSMap.set m k v) k2 = JSMap.get m k2 := by
  induction m with
  | nil => simp [JSMap.set, JSMap.get, hne]
  | cons p m ih =>
    obtain ⟨k', v'⟩ := p
    by_cases hk : k' = k
    · subst hk
      simp [JSMap.set, JSMap.get, hne]
    · by_cases hk2 : k' = k2
      · subst hk2
        simp [JSMap.set, JSMap.get, hk]
      · simp [JSMap.set, JSMap.get, hk, hk2, ih]

theorem JSMap.length_set_of_get_some {α : Type} (m : List (String × α)) (k : String)
    (v w : α) (h : JSMap.get m k = some w) : (JSMap.set m k v).length = m.length := by
  induction m with
  | nil => simp [JSMap.get] at h
  | cons p m ih =>
    obtain ⟨k', v'⟩ := p
    by_cases hk : k' = k
    · simp [JSMap.set, hk]
    · simp [JSMap.get, hk] at h
      simp [JSMap.set, hk, ih h]

theorem JSArray.get_set_at {α : Type} (a : List (Option α)) (k : Nat) (v : α) :
    JSArray.get (JSArray.set a k v) (k : Int) = some v := by
  rw [JSArray.get_natCast]
  induction a generalizing k with
  | nil =>
    induction k with
    | zero => simp [JSArray.set]
    | succ k ih => simpa [JSArray.set] using ih
  | cons x a ih =>
    cases k with
    | zero => simp [JSArray.set]
    | succ k => simpa [JSArray.set] using ih k

theorem JSArray.length_set {α : Type} (a : List (Option α)) (k : Nat) (v : α) :
    (JSArray.set a k v).length = max a.length (k + 1) := by
  induction a generalizing k with
  | nil =>
    induction k with
    | zero => simp [JSArray.set]
    | succ k ih => simp [JSArray.set, ih]
  | cons x a ih =>
    cases k with
    | zero => simp [JSArray.set]
    | succ k => simp [JSArray.set, ih k]; omega

theorem ShaderPassInfo.new_fields (name : String) (index : Nat) (o : Options)
    (hvalid : nameRegexTest name = true) :
    ∃ info, ShaderPassInfo.new name index o = .ok info ∧
      info.index = o.index.getD index ∧ info.name = o.name.getD name := by
  refine ⟨_, ShaderPassInfo.new_of_valid name index o hvalid, ?_, ?_⟩
  · rw [ShaderPassInfo.assign_base]; rfl
  · rw [ShaderPassInfo.assign_base]; rfl

/-- C18: `allocate(name, options)` with a valid name that is not yet allocated succeeds and
consumes one index (`nextIndex` grows by 1) whatever the options carry. With an `index`
field `k` the returned info has index `k`, not the previous `nextIndex`, and is written
to `passesIndexed[k]`, replacing what was there. With a `name` field `m` the info has
name `m` and is registered in `passesNamed` under `m`; the name passed to `allocate`
stays unregistered when it differs from `m`. In a reachable registry such a call breaks
the invariant: an `index` field other than `nextIndex` leaves `passesIndexed` with a
length other than `nextIndex`, and a `name` field that is already registered leaves
`passesNamed` with fewer than `nextIndex` entries. -/
theorem allocate_options_override (s : ShaderPass) (name : String) (o : Options)
    (hvalid : nameRegexTest name = true) (hnew : s.getByName name = none) :
    ∃ info, (s.allocate name o).1 = .ok info ∧
      (s.allocate name o).2.nextIndex = s.nextIndex + 1 ∧
      (∀ k, o.index = some k →
        info.index = k ∧
        (s.allocate name o).2.passesIndexed = JSArray.set s.passesIndexed k info ∧
        JSArray.get (s.allocate name o).2.passesIndexed (k : Int) = some info) ∧
      (∀ m, o.name = some m →
        info.name = m ∧
        (s.allocate name o).2.passesNamed = JSMap.set s.passesNamed m info ∧
        (s.allocate name o).2.getByName m = some info ∧
        (m ≠ name → (s.allocate name o).2.getByName name = none)) ∧
      (Reachable s → ∀ k, o.index = some k → k ≠ s.nextIndex →
        (s.allocate name o).2.passesIndexed.length ≠ (s.allocate name o).2.nextIndex) ∧
      (Reachable s → ∀ m, o.name = some m → s.getByName m ≠ none →
        (s.allocate name o).2.passesNamed.length < (s.allocate name o).2.nextIndex) := by
  have hget : JSMap.get s.passesNamed name = none := hnew
  obtain ⟨info, hinfo, hidx, hname⟩ := ShaderPassInfo.new_fields name s.nextIndex o hvalid
  have hall : s.allocate name o = (.ok info,
      { passesNamed := JSMap.set s.passesNamed info.name info
        passesIndexed := JSArray.set s.passesIndexed info.index info
        nextIndex := s.nextIndex + 1 }) := by
    simp only [ShaderPass.allocate, hget, hinfo]
  refine ⟨info, by rw [hall], by rw [hall], ?_, ?_, ?_, ?_⟩
  · intro k hk
    have hik : info.index = k := by rw [hidx, hk]; rfl
    rw [hall]
    simp only [hik]
    exact ⟨trivial, trivial, JSArray.get_set_at _ _ _⟩
  · intro m hm
    have hnm : info.name = m := by rw [hname, hm]; rfl
    rw [hall]
    simp only [hnm, ShaderPass.getByName]
    refine ⟨trivial, trivial, JSMap.get_set_self _ _ _, fun hne => ?_⟩
    rw [JSMap.get_set_of_ne _ _ _ _ hne]
    exact hget
  · intro hreach k hk hne
    have hik : info.index = k := by rw [hidx, hk]; rfl
    have hlen := WellFormed.indexed_length s (reachable_wellFormed s hreach)
    rw [hall]
    simp only [hik, JSArray.length_set, hlen]
    omega
  · intro hreach m hm hex
    have hnm : info.name = m := by rw [hname, hm]; rfl
    have hwf := reachable_wellFormed s hreach
    rw [hall]
    simp only [hnm]
    cases hold : JSMap.get s.passesNamed m with
    | none => exact absurd hold hex
    | some w =>
      rw [JSMap.length_set_of_get_some _ _ _ w hold, hwf.next_eq]
      omega

theorem allocate_options_override_witness :
    nameRegexTest "custom" = true ∧ freshRegistry.getByName "custom" = none ∧
    ((freshRegistry.allocate "custom" { index := some 0, name := some "forward" }).2.passesIndexed.map (fun x => x.map (fun i => (i.name, i.index)))) =
      [some ("forward", 0), some ("prepass", 1), some ("shadow", 2), some ("pick", 3)] ∧
    ((freshRegistry.allocate "custom" { index := some 0, name := some "forward" }).2.passesNamed.map (fun p => (p.1, p.2.index))) =
      [("forward", 0), ("prepass", 1), ("shadow", 2), ("pick", 3)] ∧
    ∃ info, (freshRegistry.allocate "custom" { index := some 0, name := some "forward" }).1 = .ok info ∧
      (freshRegistry.allocate "custom" { index := some 0, name := some "forward" }).2.nextIndex = freshRegistry.nextIndex + 1 ∧
      (∀ k, (some 0 : Option Nat) = some k →
        info.index = k ∧
        (freshRegistry.allocate "custom" { index := some 0, name := some "forward" }).2.passesIndexed = JSArray.set freshRegistry.passesIndexed k info ∧
        JSArray.get (freshRegistry.allocate "custom" { index := some 0, name := some "forward" }).2.passesIndexed (k : Int) = some info) ∧
      (∀ m, (some "forward" : Option String) = some m →
        info.name = m ∧
        (freshRegistry.allocate "custom" { index := some 0, name := some "forward" }).2.passesNamed = JSMap.set freshRegistry.passesNamed m info ∧
        (freshRegistry.allocate "custom" { index := some 0, name := some "forward" }).2.getByName m = some info ∧
        (m ≠ "custom" → (freshRegistry.allocate "custom" { index := some 0, name := some "forward" }).2.getByName "custom" = none)) ∧
      (Reachable freshRegistry → ∀ k, (some 0 : Option Nat) = some k →
        k ≠ freshRegistry.nextIndex →
        (freshRegistry.allocate "custom" { index := some 0, name := some "forward" }).2.passesIndexed.length ≠ (freshRegistry.allocate "custom" { index := some 0, name := some "forward" }).2.nextIndex) ∧
      (Reachable freshRegistry → ∀ m, (some "forward" : Option String) = some m →
        freshRegistry.getByName m ≠ none →
        (freshRegistry.allocate "custom" { index := some 0, name := some "forward" }).2.passesNamed.length < (freshRegistry.allocate "custom" { index := some 0, name := some "forward" }).2.nextIndex) :=
  ⟨by decide, by decide, by decide, by decide,
    allocate_options_override freshRegistry "custom"
      { index := some 0, name := some "forward" } (by decide) (by decide)⟩

/-! ## Theorems on the device cache -/

theorem DeviceCache.find_store_self {α : Type} (cache : DeviceCache α) (device : Device)
    (v : α) : (cache.store device v).find device = some v := by
  simp [DeviceCache.find, DeviceCache.store]

theorem DeviceCache.find_store_of_ne {α : Type} (cache : DeviceCache α) (d1 d2 : Device)
    (v : α) (hne : d1 ≠ d2) : (cache.store d1 v).find d2 = cache.find d2 := by
  have h1 : (d1 == d2) = false := by simpa using hne
  simp only [DeviceCache.find, DeviceCache.store, List.find?_cons, h1]
  have h2 : List.find? (fun p => p.1 == d2)
      (List.filter (fun p => !(p.1 == d1)) cache.entries) =
      List.find? (fun p => p.1 == d2) cache.entries := by
    induction cache.entries with
    | nil => rfl
    | cons p l ih =>
      by_cases hp : p.1 = d1
      · have hp2 : (p.1 == d2) = false := by rw [hp]; exact h1
        simp [List.filter, hp, List.find?_cons, hp2, ih, h1]
      · have hp1 : (p.1 == d1) = false := by simpa using hp
        simp only [List.filter, hp1, Bool.not_false, List.find?_cons, ih]
  rw [h2]

theorem ShaderPass.get_eq (cache : DeviceCache ShaderPass) (device : Device) :
    ShaderPass.get cache device =
      match cache.find device with
      | some r => (.ok r, cache)
      | none => (.ok freshRegistry, cache.store device freshRegistry) := by
  simp only [ShaderPass.get, DeviceCache.get, ShaderPass.new_eq]
  cases cache.find device <;> rfl

theorem ShaderPass.get_spec (cache : DeviceCache ShaderPass) (device : Device) :
    ∃ r c, ShaderPass.get cache device = (.ok r, c) ∧ c.find device = some r ∧
      (∀ r0, cache.find device = some r0 → r = r0 ∧ c = cache) ∧
      (cache.find device = none → r = freshRegistry) ∧
      (∀ d, device ≠ d → c.find d = cache.find d) := by
  rw [ShaderPass.get_eq]
  cases hf : cache.find device with
  | some r =>
    refine ⟨r, cache, rfl, hf, fun r0 h0 => ⟨?_, rfl⟩, fun h => ?_, fun _ _ => rfl⟩
    · injection h0
    · cases h
  | none =>
    refine ⟨freshRegistry, cache.store device freshRegistry, rfl,
      DeviceCache.find_store_self _ _ _, fun r0 h0 => ?_, fun _ => rfl,
      fun d hd => DeviceCache.find_store_of_ne _ _ _ _ hd⟩
    cases h0

theorem ShaderPass.get_congr (c1 c2 : DeviceCache ShaderPass) (device : Device)
    (h : c1.find device = c2.find device) :
    (ShaderPass.get c1 device).1 = (ShaderPass.get c2 device).1 := by
  rw [ShaderPass.get_eq, ShaderPass.get_eq, h]
  cases c2.find device <;> rfl

theorem ShaderPass.allocateOn_spec (cache : DeviceCache ShaderPass) (device : Device)
    (name : String) (o : Options) :
    ∃ r c, ShaderPass.get cache device = (.ok r, c) ∧
      ShaderPass.allocateOn cache device name o =
        ((r.allocate name o).1, c.store device (r.allocate name o).2) ∧
      (∀ d, device ≠ d → (ShaderPass.allocateOn cache device name o).2.find d = cache.find d) ∧
      (ShaderPass.allocateOn cache device name o).2.find device =
        some (r.allocate name o).2 := by
  obtain ⟨r, c, hget, _, _, _, hother⟩ := ShaderPass.get_spec cache device
  have hall : ShaderPass.allocateOn cache device name o =
      ((r.allocate name o).1, c.store device (r.allocate name o).2) := by
    simp only [ShaderPass.allocateOn, hget]
  refine ⟨r, c, hget, hall, fun d hd => ?_, ?_⟩
  · rw [hall]
    show (c.store device (r.allocate name o).2).find d = cache.find d
    rw [DeviceCache.find_store_of_ne _ _ _ _ hd, hother d hd]
  · rw [hall]
    exact DeviceCache.find_store_self _ _ _

theorem ShaderPass.allocateOn_congr (c1 c2 : DeviceCache ShaderPass) (device : Device)
    (name : String) (o : Options) (h : c1.find device = c2.find device) :
    (ShaderPass.allocateOn c1 device name o).1 = (ShaderPass.allocateOn c2 device name o).1 := by
  have hg := ShaderPass.get_congr c1 c2 device h
  obtain ⟨r1, k1, hget1, hall1, _, _⟩ := ShaderPass.allocateOn_spec c1 device name o
  obtain ⟨r2, k2, hget2, hall2, _, _⟩ := ShaderPass.allocateOn_spec c2 device name o
  rw [hget1, hget2] at hg
  injection hg with hg
  subst hg
  rw [hall1, hall2]

/-- C16: for two distinct devices `d1` and `d2` and any state of the cache, an `allocate` on
`ShaderPass.get(d1)` leaves what `ShaderPass.get(d2)` returns as it was (the same
passes and the same `nextIndex`), and an `allocate` made on `ShaderPass.get(d2)`
afterwards returns what it would have returned without the allocation on `d1`. A
second `ShaderPass.get(d1)` returns the registry of the first with the allocation in it
and leaves the cache as it is, so no registry is constructed. -/
theorem registries_per_device (cache : DeviceCache ShaderPass) (d1 d2 : Device)
    (hne : d1 ≠ d2) (name : String) (o : Options) :
    (ShaderPass.get (ShaderPass.allocateOn cache d1 name o).2 d2).1 =
      (ShaderPass.get cache d2).1 ∧
    (∀ name2 o2,
      (ShaderPass.allocateOn (ShaderPass.allocateOn cache d1 name o).2 d2 name2 o2).1 =
        (ShaderPass.allocateOn cache d2 name2 o2).1) ∧
    (∃ r, (ShaderPass.get cache d1).1 = .ok r ∧
      ShaderPass.get (ShaderPass.allocateOn cache d1 name o).2 d1 =
        (.ok (r.allocate name o).2, (ShaderPass.allocateOn cache d1 name o).2)) ∧
    ShaderPass.get (ShaderPass.get cache d1).2 d1 =
      ((ShaderPass.get cache d1).1, (ShaderPass.get cache d1).2) := by
  obtain ⟨r, c, hget, _, hother, hself⟩ := ShaderPass.allocateOn_spec cache d1 name o
  refine ⟨ShaderPass.get_congr _ _ d2 (hother d2 hne),
    fun name2 o2 => ShaderPass.allocateOn_congr _ _ d2 name2 o2 (hother d2 hne),
    ⟨r, by rw [hget], ?_⟩, ?_⟩
  · rw [ShaderPass.get_eq, hself]
  · obtain ⟨r2, c2, hget2, hfind2, _, _, _⟩ := ShaderPass.get_spec cache d1
    rw [hget2]
    show ShaderPass.get c2 d1 = (.ok r2, c2)
    rw [ShaderPass.get_eq, hfind2]

theorem registries_per_device_witness :
    (1 : Device) ≠ 2 ∧
    (ShaderPass.allocateOn { entries := [] } 1 "depth" {}).1.toOption.map (fun i => i.index) =
      some 4 ∧
    (ShaderPass.allocateOn (ShaderPass.allocateOn { entries := [] } 1 "depth" {}).2 2 "depth"
      {}).1.toOption.map (fun i => i.index) = some 4 ∧
    (ShaderPass.get (ShaderPass.allocateOn { entries := [] } 1 "depth" {}).2 1).1.toOption.map
      (fun r => r.nextIndex) = some 5 ∧
    ((ShaderPass.get (ShaderPass.allocateOn { entries := [] } 1 "depth" {}).2 2).1 =
      (ShaderPass.get { entries := [] } 2).1 ∧
    (∀ name2 o2,
      (ShaderPass.allocateOn (ShaderPass.allocateOn { entries := [] } 1 "depth" {}).2 2
        name2 o2).1 = (ShaderPass.allocateOn { entries := [] } 2 name2 o2).1) ∧
    (∃ r, (ShaderPass.get { entries := [] } 1).1 = .ok r ∧
      ShaderPass.get (ShaderPass.allocateOn { entries := [] } 1 "depth" {}).2 1 =
        (.ok (r.allocate "depth" {}).2,
          (ShaderPass.allocateOn { entries := [] } 1 "depth" {}).2)) ∧
    ShaderPass.get (ShaderPass.get { entries := [] } 1).2 1 =
      ((ShaderPass.get { entries := [] } 1).1, (ShaderPass.get { entries := [] } 1).2)) :=
  ⟨by decide, by rfl, by rfl, by rfl,
    registries_per_device { entries := [] } 1 2 (by decide) "depth" {}⟩

/-! ## Theorems on `AssetReference` -/

theorem AssetReference.unbind_id_url (r : AssetReference) :
    r._unbind._id = r._id ∧ r._unbind._url = r._url := by
  unfold AssetReference._unbind
  by_cases h1 : truthyId r._id = true <;> by_cases h2 : truthyUrl r._url = true <;>
    simp [h1, h2]

theorem AssetReference.bind_id_url (r : AssetReference) :
    r._bind._id = r._id ∧ r._bind._url = r._url := by
  unfold AssetReference._bind
  by_cases h1 : truthyId r._id = true <;> by_cases h2 : truthyUrl r._url = true <;>
    simp [h1, h2]

theorem AssetReference.setId_id_url (r : AssetReference) (value : Option Int) :
    (truthyUrl r._url = true → r.setId value = (.error { message := "Can't set id and url" }, r)) ∧
    (truthyUrl r._url = false →
      (r.setId value).1 = .ok () ∧ (r.setId value).2._id = value ∧
        (r.setId value).2._url = r._url) := by
  constructor
  · intro h
    simp [AssetReference.setId, h]
  · intro h
    simp only [AssetReference.setId, h, Bool.false_eq_true, if_false]
    refine ⟨trivial, ?_, ?_⟩
    · rw [(AssetReference.bind_id_url _).1]
    · rw [(AssetReference.bind_id_url _).2]
      exact (AssetReference.unbind_id_url r).2

theorem AssetReference.setUrl_id_url (r : AssetReference) (value : Option String) :
    (truthyId r._id = true → r.setUrl value = (.error { message := "Can't set id and url" }, r)) ∧
    (truthyId r._id = false →
      (r.setUrl value).1 = .ok () ∧ (r.setUrl value).2._url = value ∧
        (r.setUrl value).2._id = r._id) := by
  constructor
  · intro h
    simp [AssetReference.setUrl, h]
  · intro h
    simp only [AssetReference.setUrl, h, Bool.false_eq_true, if_false]
    refine ⟨trivial, ?_, ?_⟩
    · rw [(AssetReference.bind_id_url _).2]
    · rw [(AssetReference.bind_id_url _).1]
      exact (AssetReference.unbind_id_url r).1

theorem AssetReference.new_ok (registry : AssetRegistry) (load add remove unload : Bool) :
    ∃ r0, AssetReference.new registry load add remove unload = .ok r0 ∧
      r0._id = none ∧ r0._url = none := by
  refine ⟨_, rfl, rfl, rfl⟩

theorem AssetReference.afterCall_exclusive (r : AssetReference) (c : SetterCall)
    (h : ¬ (truthyId r._id = true ∧ truthyUrl r._url = true)) :
    ¬ (truthyId (r.afterCall c)._id = true ∧ truthyUrl (r.afterCall c)._url = true) := by
  cases c with
  | id value =>
    simp only [AssetReference.afterCall]
    by_cases hu : truthyUrl r._url = true
    · rw [(AssetReference.setId_id_url r value).1 hu]
      exact h
    · have hu2 : truthyUrl r._url = false := by simpa using hu
      obtain ⟨_, _, h3⟩ := (AssetReference.setId_id_url r value).2 hu2
      rw [h3]
      exact fun hh => hu hh.2
  | url value =>
    simp only [AssetReference.afterCall]
    by_cases hi : truthyId r._id = true
    · rw [(AssetReference.setUrl_id_url r value).1 hi]
      exact h
    · have hi2 : truthyId r._id = false := by simpa using hi
      obtain ⟨_, _, h3⟩ := (AssetReference.setUrl_id_url r value).2 hi2
      rw [h3]
      exact fun hh => hi hh.1

theorem AssetReference.afterCalls_exclusive (calls : List SetterCall) (r : AssetReference)
    (h : ¬ (truthyId r._id = true ∧ truthyUrl r._url = true)) :
    ¬ (truthyId (r.afterCalls calls)._id = true ∧
      truthyUrl (r.afterCalls calls)._url = true) := by
  induction calls generalizing r with
  | nil => exact h
  | cons c cs ih => exact ih _ (AssetReference.afterCall_exclusive r c h)

/-- C19: the constructor of `AssetReference` succeeds and leaves id and url null; in every
state reachable from it through the `id` and `url` setters, id and url are not both
truthy. In any state with a truthy url, setting id (to any value) throws
`Can't set id and url` and leaves the whole reference, so id, url, asset and all event
handles, and the registry as they were; in any state with a truthy id, setting url does
the same. -/
theorem assetReference_id_url_exclusive :
    (∀ registry load add remove unload,
      ∃ r0, AssetReference.new registry load add remove unload = .ok r0 ∧
        r0._id = none ∧ r0._url = none) ∧
    (∀ r, AssetReference.ReachableBySetters r →
      ¬ (truthyId r._id = true ∧ truthyUrl r._url = true)) ∧
    (∀ (r : AssetReference) (value : Option Int), truthyUrl r._url = true →
      r.setId value = (.error { message := "Can't set id and url" }, r)) ∧
    (∀ (r : AssetReference) (value : Option String), truthyId r._id = true →
      r.setUrl value = (.error { message := "Can't set id and url" }, r)) := by
  refine ⟨AssetReference.new_ok, ?_, fun r value => (AssetReference.setId_id_url r value).1,
    fun r value => (AssetReference.setUrl_id_url r value).1⟩
  rintro r ⟨registry, load, add, remove, unload, r0, calls, hnew, rfl⟩
  apply AssetReference.afterCalls_exclusive
  obtain ⟨r1, hr1, hid, _⟩ := AssetReference.new_ok registry load add remove unload
  rw [hr1] at hnew
  injection hnew with hnew
  subst hnew
  rw [hid]
  exact fun hh => by simp [truthyId] at hh

theorem assetReference_id_url_exclusive_witness :
    AssetReference.ReachableBySetters (sampleAssetReference.afterCalls [.id (some 5)]) ∧
    (sampleAssetReference.afterCalls [.id (some 5)])._id = some 5 ∧
    (sampleAssetReference.afterCalls [.id (some 5)]).asset = some 50 ∧
    (sampleAssetReference.afterCalls [.id (some 5)]).registry.subscriptions =
      [{ handle := 0, event := "load:5", once := false },
       { handle := 1, event := "remove:5", once := false }] ∧
    truthyId (sampleAssetReference.afterCalls [.id (some 5)])._id = true ∧
    ¬ (truthyId (sampleAssetReference.afterCalls [.id (some 5)])._id = true ∧
      truthyUrl (sampleAssetReference.afterCalls [.id (some 5)])._url = true) ∧
    (sampleAssetReference.afterCalls [.id (some 5)]).setUrl (some "a.png") =
      (.error { message := "Can't set id and url" },
        sampleAssetReference.afterCalls [.id (some 5)]) :=
  ⟨⟨sampleAssetRegistry, true, false, true, false, sampleAssetReference, [.id (some 5)],
      rfl, rfl⟩,
    by decide, by decide, by decide, by decide,
    assetReference_id_url_exclusive.2.1 _
      ⟨sampleAssetRegistry, true, false, true, false, sampleAssetReference, [.id (some 5)],
        rfl, rfl⟩,
    assetReference_id_url_exclusive.2.2.2 _ (some "a.png") (by decide)⟩

end PlayCanvas
